import Mathlib

/-!
# Settings engine of the skill configuration page

A shallow embedding of the settings engine found, twice and verbatim, in
`src/config/site/src/skill/SettingsPage.jsx` (component `SettingsPage`) and in
`src/config/site/src/skill.tsx` (component `App`): `validateSetting`,
`loadData`, `hasChanges`, `handleSave`, `handleCancel`, `updateSetting`,
`updateConstant`, `toggleGroup`, `groupedSettings`, `renderInput` and
`renderSetting`.

Modelling conventions.

* A JavaScript value that a setting can hold is a `JsValue`.  A number held as a
  value is the exact rational that its double denotes: comparisons of finite
  doubles agree with the comparison of these rationals, and neither `NaN` nor an
  infinity can come out of `JSON.parse` or of a numeric form input.  A numeral
  read from a string by `ToNumber` is rounded to the nearest double
  (`roundToDouble`).
* The fields `required`, `min`, `max`, `group`, ... of a descriptor are typed
  as the data model types them (`null` or a boolean, `null` or a number, ...);
  `none` stands for `null` and for an absent property alike, which the code
  under study treats alike.
* A plain object used as a dictionary (`errors`, `collapsedGroups`, `groups`) is a
  list of own properties; a read that finds no own property falls back on the
  names that `Object.prototype` provides.
* The text produced by `JSON.stringify` is represented by the JSON tree it
  denotes (`Json`): the compact text is an injective function of that tree and
  `JSON.parse` reads the tree back, so comparing two texts is comparing two
  trees.
* React state is an explicit record `State`; every handler is a function from
  the state at the time it is invoked to the state after all its updates.
-/

namespace AviCore

/-! ## JavaScript values and coercions -/

/-- Run-time value of a setting: `undefined`, `null`, a boolean, a number, a
string or an array of strings. -/
inductive JsValue where
  | undefined
  | null
  | bool (b : Bool)
  | num (q : ℚ)
  | str (s : String)
  | list (xs : List String)
  deriving DecidableEq

/-- Result of `ToNumber`: a finite number, an infinity or `NaN`. -/
inductive JsNum where
  | nan
  | negInf
  | fin (q : ℚ)
  | posInf
  deriving DecidableEq

/-- The operator `<` on two numbers: false as soon as one of them is `NaN`. -/
def JsNum.lt : JsNum → JsNum → Bool
  | .nan, _ => false
  | _, .nan => false
  | .negInf, .negInf => false
  | .negInf, _ => true
  | .fin _, .negInf => false
  | .fin a, .fin b => decide (a < b)
  | .fin _, .posInf => true
  | .posInf, _ => false

/-- `ToBoolean`: the falsy values are `undefined`, `null`, `false`, `0` and the
empty string; every array is truthy, the empty one included. -/
def JsValue.truthy : JsValue → Bool
  | .undefined => false
  | .null => false
  | .bool b => b
  | .num q => decide (q ≠ 0)
  | .str s => decide (s ≠ "")
  | .list _ => true

/-- The test `value === ''`. -/
def JsValue.isEmptyString : JsValue → Bool
  | .str s => decide (s = "")
  | _ => false

/-- White space that `ToNumber` strips from both ends of a string. -/
def isStrWhiteSpace (c : Char) : Bool :=
  decide (c.toNat ∈ [9, 10, 11, 12, 13, 32, 160, 0x1680, 0x2028, 0x2029, 0x202F,
    0x205F, 0x3000, 0xFEFF]) || (decide (0x2000 ≤ c.toNat) && decide (c.toNat ≤ 0x200A))

/-- Strip white space from both ends. -/
def trimWhiteSpace (cs : List Char) : List Char :=
  ((cs.dropWhile isStrWhiteSpace).reverse.dropWhile isStrWhiteSpace).reverse

/-- Value of a digit in a base up to sixteen, if the character is one. -/
def digitValue (base : Nat) (c : Char) : Option Nat :=
  let v := if c.isDigit then c.toNat - 48
    else if 'a'.toNat ≤ c.toNat ∧ c.toNat ≤ 'f'.toNat then c.toNat - 87
    else if 'A'.toNat ≤ c.toNat ∧ c.toNat ≤ 'F'.toNat then c.toNat - 55
    else base
  if v < base then some v else none

/-- Value of a non-empty run of digits in the given base. -/
def digitsValue (base : Nat) (cs : List Char) : Option Nat :=
  if cs = [] then none
  else cs.foldl (fun acc c => acc.bind fun n => (digitValue base c).map fun v => base * n + v) (some 0)

/-- Optional `ExponentPart` that ends the literal: `e` or `E`, an optional sign
and decimal digits. -/
def exponentPart (cs : List Char) : Option ℤ :=
  match cs with
  | [] => some 0
  | c :: rest =>
    if c = 'e' ∨ c = 'E' then
      match rest with
      | '+' :: ds => (digitsValue 10 ds).map fun n => (n : ℤ)
      | '-' :: ds => (digitsValue 10 ds).map fun n => -(n : ℤ)
      | ds => (digitsValue 10 ds).map fun n => (n : ℤ)
    else none

/-- The rational `m * 10 ^ e`. -/
def scale10 (m : Nat) (e : ℤ) : ℚ :=
  if 0 ≤ e then ((m * 10 ^ e.toNat : ℕ) : ℚ) else mkRat (m : ℤ) (10 ^ (-e).toNat)

/-- `StrUnsignedDecimalLiteral`, `Infinity` apart: digits with an optional
fraction and exponent, or a fraction that starts with the dot. -/
def unsignedDecimal (cs : List Char) : Option ℚ :=
  let ip := cs.takeWhile Char.isDigit
  match cs.dropWhile Char.isDigit with
  | '.' :: r =>
    let fp := r.takeWhile Char.isDigit
    if ip = [] ∧ fp = [] then none
    else (exponentPart (r.dropWhile Char.isDigit)).bind fun e =>
      (digitsValue 10 (ip ++ fp)).map fun m => scale10 m (e - fp.length)
  | r =>
    if ip = [] then none
    else (exponentPart r).bind fun e => (digitsValue 10 ip).map fun m => scale10 m e

/-- The double nearest to a rational, ties to even, which is the number that
`ToNumber` makes of the mathematical value of a numeral: an infinity from
`2 ^ 1024` on after rounding, zero below half the smallest subnormal. -/
def roundToDouble (q : ℚ) : JsNum :=
  if q = 0 then .fin 0
  else
    let a : ℚ := |q|
    let e : ℤ := max (Int.log 2 a) (-1022)
    let quantum : ℚ := (2 : ℚ) ^ (e - 52)
    let x : ℚ := a / quantum
    let f : ℤ := ⌊x⌋
    let r : ℚ := x - f
    let n : ℤ := if r < 1 / 2 then f else if 1 / 2 < r then f + 1
      else if f % 2 = 0 then f else f + 1
    let m : ℚ := n * quantum
    if (2 : ℚ) ^ (1024 : ℕ) ≤ m then (if 0 < q then .posInf else .negInf)
    else .fin (if 0 < q then m else -m)

/-- The literal without its sign: `Infinity`, or a decimal literal, whose value is
rounded to a double. -/
def unsignedLiteral (cs : List Char) : JsNum :=
  if cs = "Infinity".toList then .posInf
  else match unsignedDecimal cs with
    | some q => roundToDouble q
    | none => .nan

/-- `StringToNumber`: white space is trimmed, the empty string is `0`, then a
binary, octal or hexadecimal integer, or a signed decimal literal, each rounded
to the nearest double; anything else is `NaN`. -/
def stringToNumber (s : List Char) : JsNum :=
  match trimWhiteSpace s with
  | [] => .fin 0
  | '0' :: p :: ds =>
    let base := if p = 'x' ∨ p = 'X' then 16 else if p = 'o' ∨ p = 'O' then 8
      else if p = 'b' ∨ p = 'B' then 2 else 0
    if base = 0 then unsignedLiteral ('0' :: p :: ds)
    else match digitsValue base ds with
      | some n => roundToDouble n
      | none => .nan
  | '+' :: cs => unsignedLiteral cs
  | '-' :: cs =>
    match unsignedLiteral cs with
    | .fin q => .fin (-q)
    | .posInf => .negInf
    | _ => .nan
  | cs => unsignedLiteral cs

/-- `Array.prototype.join(',')` on an array of strings, which is what
`ToPrimitive` and `ToString` make of it. -/
def joinComma (xs : List String) : List Char :=
  [','].intercalate (xs.map String.toList)

/-- `ToNumber`, as the relational operators apply it to an operand compared
with a number. -/
def JsValue.toNumber : JsValue → JsNum
  | .undefined => .nan
  | .null => .fin 0
  | .bool b => .fin (if b then 1 else 0)
  | .num q => .fin q
  | .str s => stringToNumber s.toList
  | .list xs => stringToNumber (joinComma xs)

/-! ## The regular expression `/^(\d{1,3}\.){3}\d{1,3}$/` -/

/-- A matcher maps the rest of the input to every rest it can leave behind. -/
abbrev Matcher := List Char → List (List Char)

/-- The class `\d`: one ASCII decimal digit. -/
def matchDigit : Matcher
  | c :: r => if c.isDigit then [r] else []
  | [] => []

/-- The literal `\.`. -/
def matchDot : Matcher
  | c :: r => if c = '.' then [r] else []
  | [] => []

/-- The quantified `\d{1,3}`, greedy: three digits are tried first, then two,
then one. -/
def matchDigits13 : Matcher := fun cs =>
  let r1 := matchDigit cs
  let r2 := r1.flatMap matchDigit
  let r3 := r2.flatMap matchDigit
  r3 ++ r2 ++ r1

/-- The group `(\d{1,3}\.)`. -/
def matchGroup : Matcher := fun cs => (matchDigits13 cs).flatMap matchDot

/-- The whole pattern applied to a string: `^` anchors the match at the start, the
group is taken three times, a last `\d{1,3}` follows and `$` (no `m` flag) asks
for the end of the input. -/
def ipRegexMatches (cs : List Char) : Bool :=
  ((((matchGroup cs).flatMap matchGroup).flatMap matchGroup).flatMap matchDigits13).any
    fun r => r.isEmpty

/-- The call `ipRegex.test(value)`, which first applies `ToString` to its argument.
The decimal rendering of a number holds at most one dot, so it never matches;
neither do `"undefined"`, `"null"`, `"true"` and `"false"`. An array is
rendered by `join(',')`. -/
def ipRegexTest : JsValue → Bool
  | .str s => ipRegexMatches s.toList
  | .list xs => ipRegexMatches (joinComma xs)
  | _ => false

/-! ## Data model -/

/-- The object under the key `setting` of one entry of `settings`. -/
structure Setting where
  value : JsValue
  required : Option Bool
  min : Option ℚ
  max : Option ℚ
  vtype : String
  ui : Option String
  enum_ : Option (List String)
  advanced : Option Bool
  group : Option String
  description : String
  deriving DecidableEq

/-- One entry of `settings`: `{ name, setting }`. -/
structure SettingItem where
  name : String
  setting : Setting
  deriving DecidableEq

/-- One entry of `constants`: `{ name, value }`. -/
structure Constant where
  name : String
  value : String
  deriving DecidableEq

/-- The read-only `skill` object. -/
structure Skill where
  id : String
  name : String
  description : String
  entry : String
  capabilities : List String
  permissions : List String
  author : String
  version : String
  deriving DecidableEq

/-- The schema held in `data` and in `originalData`. -/
structure Data where
  skill : Option Skill
  settings : List SettingItem
  constants : List Constant
  deriving DecidableEq

/-! ## validateSetting -/

/-- The strings that `validateSetting` returns. `minimumValueIs min` stands for
the template literal with `min` spliced in, `maximumValueIs max` likewise. Each
of them is a non-empty string, hence truthy. -/
inductive ErrorMessage where
  | thisFieldIsRequired
  | minimumValueIs (min : ℚ)
  | maximumValueIs (max : ℚ)
  | invalidIpAddressFormat
  deriving DecidableEq

/-- The two range tests: `min !== null && value < min`, then
`max !== null && value > max`. -/
def rangeError (setting : Setting) : Option ErrorMessage :=
  match setting.min with
  | some m =>
    if setting.value.toNumber.lt (.fin m) then some (.minimumValueIs m)
    else match setting.max with
      | some M => if (JsNum.fin M).lt setting.value.toNumber then some (.maximumValueIs M) else none
      | none => none
  | none =>
    match setting.max with
    | some M => if (JsNum.fin M).lt setting.value.toNumber then some (.maximumValueIs M) else none
    | none => none

/-- The function `validateSetting(name, setting)`; `none` is the `null` it
returns for a valid setting. -/
def validateSetting (_name : String) (setting : Setting) : Option ErrorMessage :=
  if setting.required = some true ∧
      (setting.value.truthy = false ∨ setting.value.isEmptyString = true) then
    some .thisFieldIsRequired
  else
    match (if setting.vtype = "number" ∨ setting.vtype = "time.seconds"
        then rangeError setting else none) with
    | some e => some e
    | none =>
      if setting.vtype = "io.ip" ∧ ipRegexTest setting.value = false then
        some .invalidIpAddressFormat
      else none

/-! ## Plain objects used as dictionaries -/

/-- Own enumerable string-keyed properties of a plain object, in the order of
their creation. -/
abbrev JsObj (α : Type) := List (String × α)

namespace JsObj

/-- Own property lookup. -/
def getOwn {α : Type} (o : JsObj α) (k : String) : Option α :=
  match o with
  | [] => none
  | (k1, v) :: rest => if k1 = k then some v else getOwn rest k

/-- Whether the object has an own property of that name. -/
def hasOwn {α : Type} (o : JsObj α) (k : String) : Bool :=
  (getOwn o k).isSome

/-- Definition of an own data property, as a computed key of an object literal
does it (`CreateDataProperty`): a property that exists keeps its place and takes
the new value, a new one is added last. -/
def define {α : Type} (o : JsObj α) (k : String) (v : α) : JsObj α :=
  match o with
  | [] => [(k, v)]
  | (k1, v1) :: rest => if k1 = k then (k1, v) :: rest else (k1, v1) :: define rest k v

/-- The assignment `o[k] = v` of a primitive value `v` on an object whose
prototype is `Object.prototype`. Every inherited data property is writable, so
the assignment defines an own property, with one exception: when the object has
no own property `__proto__`, the key `__proto__` reaches the accessor inherited
from `Object.prototype`, whose setter ignores a value that is neither an object
nor `null`; the object is left as it was. -/
def assignPrimitive {α : Type} (o : JsObj α) (k : String) (v : α) : JsObj α :=
  if k = "__proto__" ∧ hasOwn o k = false then o else define o k v

/-- Numeric value of a key that is an array index: a canonical decimal numeral
(no leading zero) below `2 ^ 32 - 1`. -/
def arrayIndex (k : String) : Option Nat :=
  match digitsValue 10 k.toList with
  | some n =>
    if (k.toList.head? = some '0' → k.toList.length = 1) ∧ (∀ c ∈ k.toList, c.isDigit = true)
        ∧ n < 4294967295 then some n
    else none
  | none => none

/-- Insertion of an index key in a list sorted by index. -/
def insertIndex (n : Nat) (k : String) : List (Nat × String) → List (Nat × String)
  | [] => [(n, k)]
  | (m, l) :: rest => if n ≤ m then (n, k) :: (m, l) :: rest else (m, l) :: insertIndex n k rest

/-- The call `Object.keys(o)`: the keys that are array indices in ascending numeric
order, then the other keys in the order of their creation. -/
def keys {α : Type} (o : JsObj α) : List String :=
  let ks := o.map Prod.fst
  let idx := ks.foldl (fun acc k => match arrayIndex k with
    | some n => insertIndex n k acc
    | none => acc) []
  idx.map Prod.snd ++ ks.filter fun k => (arrayIndex k).isNone

end JsObj

/-! ## JSON.stringify and JSON.parse -/

/-- A JSON text, represented by the tree it denotes. -/
inductive Json where
  | null
  | bool (b : Bool)
  | num (q : ℚ)
  | str (s : String)
  | arr (xs : List Json)
  | obj (kvs : List (String × Json))

namespace Json

mutual
/-- Equality of two JSON texts. -/
def beq : Json → Json → Bool
  | .null, .null => true
  | .bool a, .bool b => a == b
  | .num a, .num b => a == b
  | .str a, .str b => a == b
  | .arr xs, .arr ys => beqList xs ys
  | .obj xs, .obj ys => beqFields xs ys
  | _, _ => false
/-- Equality of two sequences of elements. -/
def beqList : List Json → List Json → Bool
  | [], [] => true
  | x :: xs, y :: ys => beq x y && beqList xs ys
  | _, _ => false
/-- Equality of two sequences of members. -/
def beqFields : List (String × Json) → List (String × Json) → Bool
  | [], [] => true
  | (k, x) :: xs, (l, y) :: ys => k == l && beq x y && beqFields xs ys
  | _, _ => false
end

/-- Property read on a parsed value: the member of that name, `none` for
`undefined`. -/
def field (j : Json) (k : String) : Option Json :=
  match j with
  | .obj kvs => kvs.lookup k
  | _ => none

/-- A parsed value read as a string. -/
def asString : Json → String
  | .str s => s
  | _ => ""

/-- A parsed value read as an array of strings. -/
def asStrings : Json → List String
  | .arr xs => xs.map asString
  | _ => []

/-- A parsed value read as an array. -/
def asArray : Json → List Json
  | .arr xs => xs
  | _ => []

end Json

/-- Serialisation of an array of strings. -/
def stringsToJson (xs : List String) : Json := .arr (xs.map Json.str)

/-- JSON serialisation of a setting value; `none` is `undefined`, for which
`JSON.stringify` leaves the property out. -/
def JsValue.toJson : JsValue → Option Json
  | .undefined => none
  | .null => some .null
  | .bool b => some (.bool b)
  | .num q => some (.num q)
  | .str s => some (.str s)
  | .list xs => some (stringsToJson xs)

/-- A property of the parsed text read back as a setting value. -/
def JsValue.ofJson : Option Json → JsValue
  | none => .undefined
  | some .null => .null
  | some (.bool b) => .bool b
  | some (.num q) => .num q
  | some (.str s) => .str s
  | some (.arr xs) => .list (xs.map Json.asString)
  | some (.obj _) => .undefined

/-- Serialisation of a property that is `null` or holds a value. -/
def optToJson {α : Type} (f : α → Json) : Option α → Json
  | none => .null
  | some a => f a

/-- Serialisation of the `setting` object. -/
def Setting.toJson (s : Setting) : Json :=
  .obj ((match s.value.toJson with
      | some j => [("value", j)]
      | none => []) ++
    [("required", optToJson Json.bool s.required),
     ("min", optToJson Json.num s.min),
     ("max", optToJson Json.num s.max),
     ("vtype", .str s.vtype),
     ("ui", optToJson Json.str s.ui),
     ("enum_", optToJson stringsToJson s.enum_),
     ("advanced", optToJson Json.bool s.advanced),
     ("group", optToJson Json.str s.group),
     ("description", .str s.description)])

/-- A property read as `null` or a boolean. -/
def readOptBool : Option Json → Option Bool
  | some (.bool b) => some b
  | _ => none

/-- A property read as `null` or a number. -/
def readOptNum : Option Json → Option ℚ
  | some (.num q) => some q
  | _ => none

/-- A property read as `null` or a string. -/
def readOptStr : Option Json → Option String
  | some (.str s) => some s
  | _ => none

/-- A property read as `null` or an array of strings. -/
def readOptStrings : Option Json → Option (List String)
  | some (.arr xs) => some (xs.map Json.asString)
  | _ => none

/-- A property read as a string. -/
def readStr : Option Json → String
  | some v => v.asString
  | none => ""

/-- A property read as an array of strings. -/
def readStrings : Option Json → List String
  | some v => v.asStrings
  | none => []

/-- A parsed `setting` object read back. -/
def Setting.ofJson (j : Json) : Setting where
  value := JsValue.ofJson (j.field "value")
  required := readOptBool (j.field "required")
  min := readOptNum (j.field "min")
  max := readOptNum (j.field "max")
  vtype := readStr (j.field "vtype")
  ui := readOptStr (j.field "ui")
  enum_ := readOptStrings (j.field "enum_")
  advanced := readOptBool (j.field "advanced")
  group := readOptStr (j.field "group")
  description := readStr (j.field "description")

/-- Serialisation of one entry of `settings`. -/
def SettingItem.toJson (x : SettingItem) : Json :=
  .obj [("name", .str x.name), ("setting", x.setting.toJson)]

/-- A parsed entry of `settings` read back. -/
def SettingItem.ofJson (j : Json) : SettingItem where
  name := readStr (j.field "name")
  setting := Setting.ofJson ((j.field "setting").getD .null)

/-- Serialisation of one entry of `constants`. -/
def Constant.toJson (c : Constant) : Json :=
  .obj [("name", .str c.name), ("value", .str c.value)]

/-- A parsed entry of `constants` read back. -/
def Constant.ofJson (j : Json) : Constant where
  name := readStr (j.field "name")
  value := readStr (j.field "value")

/-- Serialisation of the `skill` object. -/
def Skill.toJson (k : Skill) : Json :=
  .obj [("id", .str k.id), ("name", .str k.name), ("description", .str k.description),
    ("entry", .str k.entry), ("capabilities", stringsToJson k.capabilities),
    ("permissions", stringsToJson k.permissions), ("author", .str k.author),
    ("version", .str k.version)]

/-- A parsed `skill` object read back. -/
def Skill.ofJson (j : Json) : Skill where
  id := readStr (j.field "id")
  name := readStr (j.field "name")
  description := readStr (j.field "description")
  entry := readStr (j.field "entry")
  capabilities := readStrings (j.field "capabilities")
  permissions := readStrings (j.field "permissions")
  author := readStr (j.field "author")
  version := readStr (j.field "version")

/-- The call `JSON.stringify(data)` on a schema. -/
def jsonStringify (d : Data) : Json :=
  .obj [("skill", optToJson Skill.toJson d.skill),
    ("settings", .arr (d.settings.map SettingItem.toJson)),
    ("constants", .arr (d.constants.map Constant.toJson))]

/-- The call `JSON.parse(text)`, its result read as a schema. -/
def jsonParse (j : Json) : Data where
  skill := match j.field "skill" with
    | some (.obj kvs) => some (Skill.ofJson (.obj kvs))
    | _ => none
  settings := ((j.field "settings").getD .null).asArray.map SettingItem.ofJson
  constants := ((j.field "constants").getD .null).asArray.map Constant.ofJson

/-! ## Component state and handlers -/

/-- The state cells of the component (`useState`). -/
structure State where
  activeTab : String
  data : Data
  originalData : Data
  showAdvanced : Bool
  collapsedGroups : JsObj Bool
  errors : JsObj (Option ErrorMessage)
  saving : Bool

/-- The initial values given to `useState`. -/
def State.initial : State where
  activeTab := "settings"
  data := { skill := none, settings := [], constants := [] }
  originalData := { skill := none, settings := [], constants := [] }
  showAdvanced := false
  collapsedGroups := []
  errors := []
  saving := false

/-- The handler `loadData`, `result` being what `fetchSettings` resolved to: the
result becomes `data` and a serialise/parse copy of it becomes `originalData`. -/
def loadData (result : Data) (s : State) : State :=
  { s with data := result, originalData := jsonParse (jsonStringify result) }

/-- The function `hasChanges()`. -/
def hasChanges (s : State) : Bool :=
  !(Json.beq (jsonStringify s.data) (jsonStringify s.originalData))

/-- The loop of `handleSave` that fills `newErrors`, started from the empty
object. -/
def collectErrors (settings : List SettingItem) : JsObj (Option ErrorMessage) :=
  settings.foldl (fun newErrors item =>
    match validateSetting item.name item.setting with
    | some error => JsObj.assignPrimitive newErrors item.name (some error)
    | none => newErrors) []

/-- How the promise returned by the collaborator `saveSettings` settles. -/
inductive SaveOutcome where
  | resolved
  | rejected
  deriving DecidableEq

/-- The handler `handleSave` up to the point where it returns or suspends on `await`:
the state reached, and the argument of `saveSettings` when it is called. -/
def handleSaveBegin (s : State) : State × Option Data :=
  let newErrors := collectErrors s.data.settings
  if (JsObj.keys newErrors).length > 0 then
    ({ s with errors := newErrors }, none)
  else
    ({ s with saving := true }, some s.data)

/-- The rest of `handleSave`, run when the awaited promise has resolved. `data` is
the content, at that moment, of the object the handler captured: the snapshot
is taken after the `await`, and `updateSetting` and `updateConstant` assign into
the entries of that object, so an edit made while the save was pending is part
of it. -/
def handleSaveResume (data : Data) (s : State) : State :=
  { s with originalData := jsonParse (jsonStringify data), errors := [], saving := false }

/-- The handler `handleSave` run to its end against a collaborator, no other handler
running between the call of `saveSettings` and its answer, so that the captured
object still holds `s.data` when the promise resolves: the final state and the
arguments of the calls made to `saveSettings`. A rejected promise makes `await`
throw, which ends the handler there. -/
def handleSave (saveSettings : Data → SaveOutcome) (s : State) : State × List Data :=
  match handleSaveBegin s with
  | (s1, none) => (s1, [])
  | (s1, some data) =>
    match saveSettings data with
    | .resolved => (handleSaveResume data s1, [data])
    | .rejected => (s1, [data])

/-- The handler `handleCancel`. -/
def handleCancel (s : State) : State :=
  { s with data := jsonParse (jsonStringify s.originalData), errors := [] }

/-- An exception thrown by a handler. -/
inductive JsError where
  | typeError
  deriving DecidableEq

/-- The handler `updateSetting(index, newValue)`. Reading `.setting` of
`settings[index]` throws a `TypeError` when the index is out of range, before
any state is set. The assignment mutates the entry shared by `data` and
`newData`; `originalData` is always a serialise/parse copy and shares nothing
with them. -/
def updateSetting (index : Nat) (newValue : JsValue) (s : State) : Except JsError State :=
  match s.data.settings.get? index with
  | none => .error .typeError
  | some item =>
    let newItem : SettingItem := { item with setting := { item.setting with value := newValue } }
    let newData : Data := { s.data with settings := s.data.settings.set index newItem }
    let error := validateSetting newItem.name newItem.setting
    .ok { s with data := newData, errors := JsObj.define s.errors newItem.name error }

/-- The handler `updateConstant(index, newValue)`. -/
def updateConstant (index : Nat) (newValue : String) (s : State) : Except JsError State :=
  match s.data.constants.get? index with
  | none => .error .typeError
  | some c =>
    let newData : Data :=
      { s.data with constants := s.data.constants.set index { c with value := newValue } }
    .ok { s with data := newData }

/-- One edit made through the form. -/
inductive Edit where
  | setting (index : Nat) (newValue : JsValue)
  | constant (index : Nat) (newValue : String)

/-- The state after one edit; a handler that throws has set no state. -/
def applyEdit (s : State) : Edit → State
  | .setting index newValue =>
    match updateSetting index newValue s with
    | .ok s1 => s1
    | .error _ => s
  | .constant index newValue =>
    match updateConstant index newValue s with
    | .ok s1 => s1
    | .error _ => s

/-- The state after a sequence of edits. -/
def applyEdits (s : State) (edits : List Edit) : State :=
  edits.foldl applyEdit s

/-! ## Vocabulary of the specification -/

/-- One to three decimal digits. -/
def IsDigitGroup (g : List Char) : Prop :=
  1 ≤ g.length ∧ g.length ≤ 3 ∧ ∀ c ∈ g, c.isDigit = true

/-- Exactly four groups of one to three decimal digits separated by single dots,
nothing before and nothing after. -/
def IsDottedQuad (cs : List Char) : Prop :=
  ∃ a b c d : List Char, IsDigitGroup a ∧ IsDigitGroup b ∧ IsDigitGroup c ∧ IsDigitGroup d ∧
    cs = a ++ '.' :: (b ++ '.' :: (c ++ '.' :: d))

/-! ## The example schema of `fetchSettings` -/

/-- A descriptor with every optional property `null`. -/
def plainSetting (vtype : String) (value : JsValue) (description : String) : Setting where
  value := value
  required := none
  min := none
  max := none
  vtype := vtype
  ui := none
  enum_ := none
  advanced := none
  group := none
  description := description

/-- The entry `welcome_brightness` of the example, holding `value`. -/
def welcomeBrightness (value : JsValue) : Setting :=
  { plainSetting "number" value "Brightness level for the welcome light" with
    min := some 0, max := some 100 }

/-- The entry `device_ip` of the example, holding `value`. -/
def deviceIp (value : JsValue) : Setting :=
  { plainSetting "io.ip" value "IP address of the smart plug" with
    ui := some "text", required := some true }

/-- The entry `mode` of the example, holding `value`. -/
def modeSetting (value : JsValue) : Setting :=
  { plainSetting "enum" value "Select device mode" with
    ui := some "dropdown", enum_ := some ["eco", "normal", "turbo"] }

/-- The entry `linked_devices` of the example, holding `value`. -/
def linkedDevices (value : JsValue) : Setting :=
  plainSetting "list" value "Devices to activate together"

/-- The entry `api_token` of the example, holding `value`. -/
def apiToken (value : JsValue) : Setting :=
  { plainSetting "string" value "Private API token for debug operations" with
    advanced := some true, ui := some "password" }

/-- The entry `poll_interval` of the example, holding `value`. -/
def pollInterval (value : JsValue) : Setting :=
  { plainSetting "time.seconds" value "Polling frequency to check if the device is online" with
    min := some 5, max := some 300, ui := some "slider" }

/-- The object that the example body of `fetchSettings` returns in
`SettingsPage.jsx`. -/
def fetchSettingsExample : Data where
  skill := none
  settings := [
    { name := "welcome_brightness", setting := welcomeBrightness (.num 80) },
    { name := "linked_devices",
      setting := linkedDevices (.list ["light-bedroom", "speaker-bedroom"]) },
    { name := "api_token", setting := apiToken (.str "") },
    { name := "poll_interval", setting := pollInterval (.num 30) },
    { name := "device_ip", setting := deviceIp (.str "192.168.1.123") },
    { name := "mode", setting := modeSetting (.str "eco") },
    { name := "light_id",
      setting := { plainSetting "string" (.str "light-hallway-1") "ID of the hallway light" with
        group := some "Hallway Settings" } },
    { name := "motion_timeout",
      setting := { plainSetting "time.seconds" (.num 120) "Seconds before auto-off" with
        group := some "Hallway Settings" } },
    { name := "welcome_message",
      setting := { plainSetting "string" (.str "Welcome home!")
        "Message to play when the user arrives" with ui := some "text" } },
    { name := "enable_logging",
      setting := { plainSetting "boolean" (.bool true) "Enable verbose logging" with
        ui := some "toggle" } }]
  constants := [
    { name := "HUE_BRIDGE_IP", value := "192.168.1.42" },
    { name := "API_TOKEN", value := "sk-0ae39..." },
    { name := "ENCRYPTION_KEY", value := "kdfj39f..." }]

/-- A schema whose only setting is required, empty and named like the accessor
that every plain object inherits. -/
def protoSchema : Data where
  skill := none
  settings := [
    { name := "__proto__", setting := { plainSetting "string" (.str "") "" with
        required := some true } }]
  constants := [{ name := "API_TOKEN", value := "sk-0ae39..." }]

/-- The session that loaded `protoSchema` and edited its constant. -/
def protoState : State :=
  applyEdits (loadData protoSchema State.initial) [.constant 0 "sk-1"]

/-- The schema `protoSchema` with a second required and empty setting. -/
def protoSchemaTwo : Data where
  skill := none
  settings := [
    { name := "__proto__", setting := { plainSetting "string" (.str "") "" with
        required := some true } },
    { name := "api_token", setting := { apiToken (.str "") with required := some true } }]
  constants := []

/-- The session that loaded `protoSchemaTwo`. -/
def protoStateTwo : State := loadData protoSchemaTwo State.initial

/-- A schema whose first setting is advanced, required, empty and named
`__proto__`, followed by `welcome_brightness` of the example. -/
def protoSchemaHidden : Data where
  skill := none
  settings := [
    { name := "__proto__", setting := { plainSetting "string" (.str "") "" with
        required := some true, advanced := some true } },
    { name := "welcome_brightness", setting := welcomeBrightness (.num 80) }]
  constants := [{ name := "API_TOKEN", value := "sk-0ae39..." }]

/-- The session that loaded `protoSchemaHidden` and typed 150 into
`welcome_brightness`: `showAdvanced` is false, so the Settings tab shows the card
of `welcome_brightness` only, and the action bar is there. -/
def protoStateHidden : State :=
  applyEdits (loadData protoSchemaHidden State.initial) [.setting 1 (.num 150)]

/-! ## View state, the action bar and reachable states -/

/-- Names of the properties that every plain object inherits from
`Object.prototype`. Read on an object that has no own property of that name,
each gives a function or an object, which is truthy. -/
def objectPrototypeKeys : List String :=
  ["constructor", "__defineGetter__", "__defineSetter__", "hasOwnProperty",
    "__lookupGetter__", "__lookupSetter__", "isPrototypeOf", "propertyIsEnumerable",
    "toString", "valueOf", "__proto__", "toLocaleString"]

/-- Truthiness of the read `o[k]` on an object whose own properties hold
booleans: the own property when there is one, else what the prototype gives. -/
def JsObj.readTruthy (o : JsObj Bool) (k : String) : Bool :=
  match JsObj.getOwn o k with
  | some b => b
  | none => decide (k ∈ objectPrototypeKeys)

/-- The handler `toggleGroup(group)`. -/
def toggleGroup (group : String) (s : State) : State :=
  { s with collapsedGroups :=
      JsObj.define s.collapsedGroups group (!JsObj.readTruthy s.collapsedGroups group) }

/-- The click handler of the Show/Hide Advanced button,
`setShowAdvanced(!showAdvanced)`. -/
def toggleShowAdvanced (s : State) : State :=
  { s with showAdvanced := !s.showAdvanced }

/-- A click on the Save button. The action bar that holds the button is rendered only
when `hasChanges()` is true, and the button carries `disabled={saving}`: in any
other state no click reaches `handleSave`. -/
def clickSave (saveSettings : Data → SaveOutcome) (s : State) : State × List Data :=
  if hasChanges s = true ∧ s.saving = false then handleSave saveSettings s else (s, [])

/-- The entry with its value replaced, every other property kept. -/
def SettingItem.withValue (x : SettingItem) (v : JsValue) : SettingItem :=
  { x with setting := { x.setting with value := v } }

/-- The states a session reaches from a `loadData` by `updateSetting`,
`updateConstant`, `handleSave` (run to its end against any collaborator) and
`handleCancel`. -/
inductive Reachable : State → Prop where
  | afterLoad (result : Data) (s0 : State) : Reachable (loadData result s0)
  | afterUpdateSetting {s s1 : State} (index : Nat) (newValue : JsValue) :
      Reachable s → updateSetting index newValue s = .ok s1 → Reachable s1
  | afterUpdateConstant {s s1 : State} (index : Nat) (newValue : String) :
      Reachable s → updateConstant index newValue s = .ok s1 → Reachable s1
  | afterHandleSave {s : State} (saveSettings : Data → SaveOutcome) :
      Reachable s → Reachable (handleSave saveSettings s).1
  | afterHandleCancel {s : State} : Reachable s → Reachable (handleCancel s)

/-- Two schemas that differ at most in the values of their settings and of their
constants: same `skill`, same entries in the same order once the values are
set aside. -/
def SameShape (a b : Data) : Prop :=
  a.skill = b.skill ∧
    a.settings.map (fun x => x.withValue .undefined)
      = b.settings.map (fun x => x.withValue .undefined) ∧
    a.constants.map (fun c => c.name) = b.constants.map (fun c => c.name)

/-- The example session after one constant was edited: every setting is valid
and there are unsaved changes. -/
def editedExample : State :=
  applyEdits (loadData fetchSettingsExample State.initial) [.constant 0 "192.168.1.43"]

/-- The example session left by a save whose promise was rejected. -/
def failedSaveExample : State :=
  (handleSave (fun _ => SaveOutcome.rejected) editedExample).1

/-! ## groupedSettings, renderInput and renderSetting -/

/-- The call `Object.entries(o)`: the own properties in the order of `Object.keys`. -/
def JsObj.entries {α : Type} (o : JsObj α) : List (String × α) :=
  (JsObj.keys o).filterMap fun k => (JsObj.getOwn o k).map fun v => (k, v)

/-- The sequence held under a label of the group index, empty when the index has
no such group. -/
def JsObj.members {α : Type} (o : JsObj (List α)) (k : String) : List α :=
  (JsObj.getOwn o k).getD []

/-- The label computed by `item.setting.group || 'General'`: `null`, an absent
property and the empty string are falsy and give `General`. -/
def groupLabel (item : SettingItem) : String :=
  match item.setting.group with
  | some g => if g = "" then "General" else g
  | none => "General"

/-- An element pushed into a group: the object `{ ...item, index }`. -/
structure GroupEntry where
  name : String
  setting : Setting
  index : Nat
  deriving DecidableEq

/-- The body of the loop of `groupedSettings` for one item. The read
`groups[group]` finds the own array when the label was met before; otherwise it
finds what `Object.prototype` provides under that name, if anything, which is
truthy, is not replaced by a fresh array and has no `push`, so that the call
throws a `TypeError`; for any other label a fresh array is assigned. -/
def groupStep (groups : JsObj (List GroupEntry)) (item : SettingItem) (index : Nat) :
    Except JsError (JsObj (List GroupEntry)) :=
  let entry : GroupEntry := { name := item.name, setting := item.setting, index := index }
  match JsObj.getOwn groups (groupLabel item) with
  | some entries => .ok (JsObj.define groups (groupLabel item) (entries ++ [entry]))
  | none =>
    if groupLabel item ∈ objectPrototypeKeys then .error .typeError
    else .ok (JsObj.define groups (groupLabel item) [entry])

/-- The loop `forEach((item, index) => ...)` from position `index` on. -/
def groupLoop : List SettingItem → Nat → JsObj (List GroupEntry) →
    Except JsError (JsObj (List GroupEntry))
  | [], _, groups => .ok groups
  | item :: rest, index, groups =>
    match groupStep groups item index with
    | .ok groups1 => groupLoop rest (index + 1) groups1
    | .error e => .error e

/-- The function `groupedSettings()`, which reads `data.settings` of the state it
closes over. -/
def groupedSettings (s : State) : Except JsError (JsObj (List GroupEntry)) :=
  groupLoop s.data.settings 0 []

/-- The kinds of form control that `renderInput` returns. -/
inductive Widget where
  | slider
  | toggle
  | dropdown
  | tagList
  | password
  | numberInput
  | textInput
  deriving DecidableEq

/-- The function `renderInput(item, index)` for a setting, reduced to the kind of
control it returns. -/
def renderInput (item : SettingItem) : Widget :=
  if (item.setting.vtype = "number" ∨ item.setting.vtype = "time.seconds") ∧
      item.setting.ui = some "slider" then .slider
  else if item.setting.vtype = "boolean" then .toggle
  else if item.setting.vtype = "enum" ∧ item.setting.enum_.isSome = true then .dropdown
  else if item.setting.vtype = "list" then .tagList
  else if item.setting.ui = some "password" then .password
  else if item.setting.vtype = "number" ∨ item.setting.vtype = "time.seconds" then .numberInput
  else .textInput

/-- What `renderSetting` returns when it is not `null`: the card of one setting, with
its control and whether an error line is shown. -/
structure SettingCard where
  name : String
  description : String
  requiredMark : Bool
  advancedBadge : Bool
  input : Widget
  showsError : Bool
  deriving DecidableEq

/-- The function `renderSetting(item, index)`: `null` for an advanced setting while
`showAdvanced` is false, the card otherwise. The error line is shown when the
read `errors[name]` is truthy. -/
def renderSetting (s : State) (item : SettingItem) : Option SettingCard :=
  if item.setting.advanced = some true ∧ s.showAdvanced = false then none
  else some
    { name := item.name
      description := item.setting.description
      requiredMark := decide (item.setting.required = some true)
      advancedBadge := decide (item.setting.advanced = some true)
      input := renderInput item
      showsError := match JsObj.getOwn s.errors item.name with
        | some e => e.isSome
        | none => decide (item.name ∈ objectPrototypeKeys) }

/-- The labels of a list in the order of their first occurrence. -/
def firstSeen : List String → List String
  | [] => []
  | l :: rest => l :: (firstSeen rest).filter fun k => decide (k ≠ l)

/-- The entries that the settings from position `index` on contribute to the
group `label`, in schema order. -/
def entriesOf (label : String) : List SettingItem → Nat → List GroupEntry
  | [], _ => []
  | item :: rest, index =>
    if groupLabel item = label then
      { name := item.name, setting := item.setting, index := index }
        :: entriesOf label rest (index + 1)
    else entriesOf label rest (index + 1)

/-! ## The second copy of the engine: component `App` of `skill.tsx` -/

namespace App

/-- The two range tests of `validateSetting` in `skill.tsx`. -/
def rangeError (setting : Setting) : Option ErrorMessage :=
  match setting.min with
  | some m =>
    if setting.value.toNumber.lt (.fin m) then some (.minimumValueIs m)
    else match setting.max with
      | some M => if (JsNum.fin M).lt setting.value.toNumber then some (.maximumValueIs M) else none
      | none => none
  | none =>
    match setting.max with
    | some M => if (JsNum.fin M).lt setting.value.toNumber then some (.maximumValueIs M) else none
    | none => none

/-- The function `validateSetting(name, setting)` of `skill.tsx`. -/
def validateSetting (_name : String) (setting : Setting) : Option ErrorMessage :=
  if setting.required = some true ∧
      (setting.value.truthy = false ∨ setting.value.isEmptyString = true) then
    some .thisFieldIsRequired
  else
    match (if setting.vtype = "number" ∨ setting.vtype = "time.seconds"
        then App.rangeError setting else none) with
    | some e => some e
    | none =>
      if setting.vtype = "io.ip" ∧ ipRegexTest setting.value = false then
        some .invalidIpAddressFormat
      else none

/-- The body of the loop of `groupedSettings` in `skill.tsx`. -/
def groupStep (groups : JsObj (List GroupEntry)) (item : SettingItem) (index : Nat) :
    Except JsError (JsObj (List GroupEntry)) :=
  let group :=
    match item.setting.group with
    | some g => if g = "" then "General" else g
    | none => "General"
  let entry : GroupEntry := { name := item.name, setting := item.setting, index := index }
  match JsObj.getOwn groups group with
  | some entries => .ok (JsObj.define groups group (entries ++ [entry]))
  | none =>
    if group ∈ objectPrototypeKeys then .error .typeError
    else .ok (JsObj.define groups group [entry])

/-- The loop of `groupedSettings` in `skill.tsx` from position `index` on. -/
def groupLoop : List SettingItem → Nat → JsObj (List GroupEntry) →
    Except JsError (JsObj (List GroupEntry))
  | [], _, groups => .ok groups
  | item :: rest, index, groups =>
    match App.groupStep groups item index with
    | .ok groups1 => App.groupLoop rest (index + 1) groups1
    | .error e => .error e

/-- The function `groupedSettings()` of `skill.tsx`. -/
def groupedSettings (s : State) : Except JsError (JsObj (List GroupEntry)) :=
  App.groupLoop s.data.settings 0 []

end App

/-! ## More example sessions -/

/-- A session with the given settings loaded and nothing else. -/
def sessionOf (settings : List SettingItem) : State :=
  loadData { skill := none, settings := settings, constants := [] } State.initial

/-- A string setting with the given name and group label. -/
def labelled (name : String) (group : Option String) : SettingItem :=
  { name := name, setting := { plainSetting "string" (.str "x") "" with group := group } }

/-- The loaded example session. -/
def loadedExample : State := loadData fetchSettingsExample State.initial

/-- The entry `api_token` of the example made required: advanced, required and
empty. -/
def requiredApiToken : SettingItem :=
  { name := "api_token", setting := { apiToken (.str "") with required := some true } }

/-- A session whose only setting is `requiredApiToken`. -/
def hiddenInvalidExample : State := sessionOf [requiredApiToken]

/-! ## The regular expression, characterised -/

theorem mem_matchDigit (cs r : List Char) :
    r ∈ matchDigit cs ↔ ∃ c, c.isDigit = true ∧ cs = c :: r := by
  cases cs with
  | nil => simp [matchDigit]
  | cons c t =>
    by_cases h : c.isDigit = true
    · simp [matchDigit, h]
      constructor
      · intro hr; exact ⟨c, h, rfl, hr.symm⟩
      · rintro ⟨c1, _, rfl, rfl⟩; rfl
    · simp [matchDigit, h]
      rintro c1 h1 rfl
      exact absurd h1 (by simpa using h)

theorem mem_matchDot (cs r : List Char) : r ∈ matchDot cs ↔ cs = '.' :: r := by
  cases cs with
  | nil => simp [matchDot]
  | cons c t =>
    by_cases h : c = '.'
    · subst h; simp [matchDot]; exact eq_comm
    · simp [matchDot, h]

theorem mem_matchDigits13 (cs r : List Char) :
    r ∈ matchDigits13 cs ↔ ∃ g, IsDigitGroup g ∧ cs = g ++ r := by
  simp only [matchDigits13, List.mem_append, List.mem_flatMap, mem_matchDigit]
  constructor
  · rintro ((⟨r2, ⟨r1, ⟨c1, h1, rfl⟩, ⟨c2, h2, rfl⟩⟩, ⟨c3, h3, rfl⟩⟩ |
        ⟨r1, ⟨c1, h1, rfl⟩, ⟨c2, h2, rfl⟩⟩) | ⟨c1, h1, rfl⟩)
    · exact ⟨[c1, c2, c3], ⟨by simp, by simp, by simp [h1, h2, h3]⟩, rfl⟩
    · exact ⟨[c1, c2], ⟨by simp, by simp, by simp [h1, h2]⟩, rfl⟩
    · exact ⟨[c1], ⟨by simp, by simp, by simp [h1]⟩, rfl⟩
  · rintro ⟨g, ⟨hlo, hhi, hd⟩, rfl⟩
    match g, hlo, hhi, hd with
    | [c1], _, _, hd =>
      right
      exact ⟨c1, hd c1 (by simp), rfl⟩
    | [c1, c2], _, _, hd =>
      left; right
      exact ⟨c2 :: r, ⟨c1, hd c1 (by simp), rfl⟩, ⟨c2, hd c2 (by simp), rfl⟩⟩
    | [c1, c2, c3], _, _, hd =>
      left; left
      exact ⟨c3 :: r, ⟨c2 :: c3 :: r, ⟨c1, hd c1 (by simp), rfl⟩, ⟨c2, hd c2 (by simp), rfl⟩⟩,
        ⟨c3, hd c3 (by simp), rfl⟩⟩
    | [], hlo, _, _ => simp at hlo
    | _ :: _ :: _ :: _ :: _, _, hhi, _ => simp at hhi

theorem mem_matchGroup (cs r : List Char) :
    r ∈ matchGroup cs ↔ ∃ g, IsDigitGroup g ∧ cs = g ++ '.' :: r := by
  simp only [matchGroup, List.mem_flatMap, mem_matchDigits13, mem_matchDot]
  constructor
  · rintro ⟨r1, ⟨g, hg, rfl⟩, rfl⟩; exact ⟨g, hg, rfl⟩
  · rintro ⟨g, hg, rfl⟩; exact ⟨'.' :: r, ⟨g, hg, rfl⟩, rfl⟩

theorem ipRegexMatches_iff (cs : List Char) : ipRegexMatches cs = true ↔ IsDottedQuad cs := by
  simp only [ipRegexMatches, List.any_eq_true, List.mem_flatMap, mem_matchGroup,
    mem_matchDigits13, List.isEmpty_iff]
  constructor
  · rintro ⟨r, ⟨r3, ⟨r2, ⟨r1, ⟨a, ha, rfl⟩, ⟨b, hb, rfl⟩⟩, ⟨c, hc, rfl⟩⟩, ⟨d, hd, rfl⟩⟩, rfl⟩
    exact ⟨a, b, c, d, ha, hb, hc, hd, by simp⟩
  · rintro ⟨a, b, c, d, ha, hb, hc, hd, rfl⟩
    exact ⟨[], ⟨d, ⟨c ++ '.' :: d, ⟨b ++ '.' :: (c ++ '.' :: d), ⟨a, ha, rfl⟩, ⟨b, hb, rfl⟩⟩,
      ⟨c, hc, rfl⟩⟩, ⟨d, hd, by simp⟩⟩, rfl⟩


/-! ## Serialise/parse copies -/

mutual
theorem json_beq_self : ∀ j : Json, Json.beq j j = true
  | .null => by simp [Json.beq]
  | .bool b => by simp [Json.beq]
  | .num q => by simp [Json.beq]
  | .str s => by simp [Json.beq]
  | .arr xs => by simp [Json.beq, json_beqList_self xs]
  | .obj kvs => by simp [Json.beq, json_beqFields_self kvs]
theorem json_beqList_self : ∀ xs : List Json, Json.beqList xs xs = true
  | [] => by simp [Json.beqList]
  | x :: xs => by simp [Json.beqList, json_beq_self x, json_beqList_self xs]
theorem json_beqFields_self : ∀ kvs : List (String × Json), Json.beqFields kvs kvs = true
  | [] => by simp [Json.beqFields]
  | (k, x) :: kvs => by simp [Json.beqFields, json_beq_self x, json_beqFields_self kvs]
end

mutual
theorem json_eq_of_beq : ∀ a b : Json, Json.beq a b = true → a = b
  | .null, b => by cases b <;> simp [Json.beq]
  | .bool x, b => by cases b <;> simp [Json.beq]
  | .num x, b => by cases b <;> simp [Json.beq]
  | .str x, b => by cases b <;> simp [Json.beq]
  | .arr xs, b => by
    cases b <;> simp [Json.beq]
    exact json_eq_of_beqList xs _
  | .obj xs, b => by
    cases b <;> simp [Json.beq]
    exact json_eq_of_beqFields xs _
theorem json_eq_of_beqList : ∀ xs ys : List Json, Json.beqList xs ys = true → xs = ys
  | [], ys => by cases ys <;> simp [Json.beqList]
  | x :: xs, ys => by
    cases ys with
    | nil => simp [Json.beqList]
    | cons y ys =>
      simp only [Json.beqList, Bool.and_eq_true, List.cons.injEq]
      exact fun h => ⟨json_eq_of_beq x y h.1, json_eq_of_beqList xs ys h.2⟩
theorem json_eq_of_beqFields :
    ∀ xs ys : List (String × Json), Json.beqFields xs ys = true → xs = ys
  | [], ys => by cases ys <;> simp [Json.beqFields]
  | (k, x) :: xs, ys => by
    cases ys with
    | nil => simp [Json.beqFields]
    | cons y ys =>
      obtain ⟨l, y⟩ := y
      simp only [Json.beqFields, Bool.and_eq_true, List.cons.injEq, Prod.mk.injEq, beq_iff_eq]
      exact fun h => ⟨⟨h.1.1, json_eq_of_beq x y h.1.2⟩, json_eq_of_beqFields xs ys h.2⟩
end

theorem json_beq_iff (a b : Json) : Json.beq a b = true ↔ a = b :=
  ⟨json_eq_of_beq a b, fun h => h ▸ json_beq_self a⟩

theorem map_asString_str (xs : List String) : (xs.map Json.str).map Json.asString = xs := by
  induction xs with
  | nil => rfl
  | cons x xs ih => simp only [List.map_cons, Json.asString, ih]

theorem jsValue_ofJson_toJson (v : JsValue) : JsValue.ofJson v.toJson = v := by
  cases v <;> simp only [JsValue.toJson, JsValue.ofJson, stringsToJson, map_asString_str]

theorem readOptBool_toJson (o : Option Bool) : readOptBool (some (optToJson Json.bool o)) = o := by
  cases o <;> rfl

theorem readOptNum_toJson (o : Option ℚ) : readOptNum (some (optToJson Json.num o)) = o := by
  cases o <;> rfl

theorem readOptStr_toJson (o : Option String) : readOptStr (some (optToJson Json.str o)) = o := by
  cases o <;> rfl

theorem readOptStrings_toJson (o : Option (List String)) :
    readOptStrings (some (optToJson stringsToJson o)) = o := by
  cases o with
  | none => rfl
  | some xs => simp only [optToJson, stringsToJson, readOptStrings, map_asString_str]

theorem readStrings_toJson (xs : List String) : readStrings (some (stringsToJson xs)) = xs := by
  simp only [readStrings, stringsToJson, Json.asStrings, map_asString_str]

theorem setting_ofJson_toJson (s : Setting) : Setting.ofJson s.toJson = s := by
  obtain ⟨value, required, min, max, vtype, ui, enum_, advanced, group, description⟩ := s
  have hv := jsValue_ofJson_toJson value
  cases hj : value.toJson <;> rw [hj] at hv <;>
    simp [Setting.ofJson, Setting.toJson, hj, Json.field, List.lookup, readOptBool_toJson,
      readOptNum_toJson, readOptStr_toJson, readOptStrings_toJson, readStr, Json.asString, hv]

theorem settingItem_ofJson_toJson (x : SettingItem) : SettingItem.ofJson x.toJson = x := by
  obtain ⟨name, setting⟩ := x
  simp [SettingItem.ofJson, SettingItem.toJson, Json.field, List.lookup, readStr, Json.asString,
    setting_ofJson_toJson]

theorem constant_ofJson_toJson (c : Constant) : Constant.ofJson c.toJson = c := by
  obtain ⟨name, value⟩ := c
  simp [Constant.ofJson, Constant.toJson, Json.field, List.lookup, readStr, Json.asString]

theorem skill_ofJson_toJson (k : Skill) : Skill.ofJson k.toJson = k := by
  obtain ⟨id, name, description, entry, capabilities, permissions, author, version⟩ := k
  simp [Skill.ofJson, Skill.toJson, Json.field, List.lookup, readStr, Json.asString,
    readStrings_toJson]

theorem jsonParse_jsonStringify (d : Data) : jsonParse (jsonStringify d) = d := by
  obtain ⟨skill, settings, constants⟩ := d
  have h1 : (settings.map SettingItem.toJson).map SettingItem.ofJson = settings := by
    rw [List.map_map]
    conv_rhs => rw [← List.map_id settings]
    exact List.map_congr_left fun x _ => settingItem_ofJson_toJson x
  have h2 : (constants.map Constant.toJson).map Constant.ofJson = constants := by
    rw [List.map_map]
    conv_rhs => rw [← List.map_id constants]
    exact List.map_congr_left fun x _ => constant_ofJson_toJson x
  cases skill with
  | none =>
    simp [jsonParse, jsonStringify, Json.field, List.lookup, optToJson, Json.asArray, h1, h2]
  | some k =>
    have h3 := skill_ofJson_toJson k
    simp only [Skill.toJson] at h3
    simp [jsonParse, jsonStringify, Json.field, List.lookup, optToJson, Json.asArray, h1, h2,
      Skill.toJson, h3]

theorem jsonStringify_injective (a b : Data) (h : jsonStringify a = jsonStringify b) : a = b := by
  rw [← jsonParse_jsonStringify a, ← jsonParse_jsonStringify b, h]

theorem hasChanges_iff (s : State) : hasChanges s = true ↔ s.data ≠ s.originalData := by
  unfold hasChanges
  rw [Bool.not_eq_true', ← Bool.not_eq_true, json_beq_iff]
  exact ⟨fun h e => h (e ▸ rfl), fun h e => h (jsonStringify_injective _ _ e)⟩

theorem hasChanges_eq_false_iff (s : State) : hasChanges s = false ↔ s.data = s.originalData := by
  rw [← Bool.not_eq_true, hasChanges_iff, not_not]


/-! ## validateSetting -/

/-- C1: a setting whose `required` is true and whose value is the empty string,
the number 0, `false`, `null` or absent gets the message "This field is
required", whatever its vtype, min and max are. -/
theorem validateSetting_required_falsy (name : String) (setting : Setting)
    (hreq : setting.required = some true)
    (hval : setting.value = .str "" ∨ setting.value = .num 0 ∨ setting.value = .bool false ∨
      setting.value = .null ∨ setting.value = .undefined) :
    validateSetting name setting = some .thisFieldIsRequired := by
  unfold validateSetting
  rw [if_pos]
  refine ⟨hreq, Or.inl ?_⟩
  rcases hval with h | h | h | h | h <;> rw [h] <;> simp [JsValue.truthy]

/-- Witness of C1 on the example entries: `poll_interval` at 0 lies below its
minimum 5 and `device_ip` at the empty string is no dotted quad, yet once they
are required both report the missing value. -/
theorem validateSetting_required_falsy_witness :
    rangeError { pollInterval (.num 0) with required := some true }
        = some (.minimumValueIs 5) ∧
      validateSetting "poll_interval" { pollInterval (.num 0) with required := some true }
        = some .thisFieldIsRequired ∧
      ipRegexTest (.str "") = false ∧
      validateSetting "device_ip" (deviceIp (.str "")) = some .thisFieldIsRequired :=
  ⟨by decide,
    validateSetting_required_falsy "poll_interval" _ rfl (Or.inr (Or.inl rfl)),
    by decide,
    validateSetting_required_falsy "device_ip" _ rfl (Or.inl rfl)⟩

/-- C2: for a numeric vtype and a value that the required rule does not catch, the
result is the minimum message when min is set and the value is below it,
otherwise the maximum message when max is set and the value is above it,
otherwise no error; so no error is returned exactly when the value lies within
both bounds, the bounds included. -/
theorem validateSetting_numeric (name : String) (setting : Setting) (v : ℚ)
    (hvtype : setting.vtype = "number" ∨ setting.vtype = "time.seconds")
    (hvalue : setting.value = .num v)
    (hreq : ¬ (setting.required = some true ∧ v = 0)) :
    (∀ m, setting.min = some m → v < m →
        validateSetting name setting = some (.minimumValueIs m)) ∧
      (∀ M, setting.max = some M → M < v → (∀ m, setting.min = some m → m ≤ v) →
        validateSetting name setting = some (.maximumValueIs M)) ∧
      (validateSetting name setting = none ↔
        (∀ m, setting.min = some m → m ≤ v) ∧ (∀ M, setting.max = some M → v ≤ M)) := by
  have hcond : ¬ (setting.required = some true ∧
      (setting.value.truthy = false ∨ setting.value.isEmptyString = true)) := by
    rintro ⟨h1, h2⟩
    apply hreq
    refine ⟨h1, ?_⟩
    rw [hvalue] at h2
    simpa [JsValue.truthy, JsValue.isEmptyString] using h2
  have hip : setting.vtype ≠ "io.ip" := by
    rcases hvtype with h | h <;> rw [h] <;> decide
  have hval : validateSetting name setting = rangeError setting := by
    unfold validateSetting
    rw [if_neg hcond, if_pos hvtype]
    cases rangeError setting with
    | some e => rfl
    | none => simp [hip]
  rw [hval]
  unfold rangeError
  rw [hvalue]
  cases hmin : setting.min with
  | none =>
    cases hmax : setting.max with
    | none => simp
    | some M =>
      by_cases h : M < v <;> simp [JsValue.toNumber, JsNum.lt, h]
      exact le_of_not_lt h
  | some m =>
    cases hmax : setting.max with
    | none =>
      by_cases h : v < m <;> simp [JsValue.toNumber, JsNum.lt, h]
      exact le_of_not_lt h
    | some M =>
      have hm : ¬ v < m ↔ m ≤ v := not_lt
      have hM : ¬ M < v ↔ v ≤ M := not_lt
      by_cases h : v < m
      · simp [JsValue.toNumber, JsNum.lt, h, ← hm]
      · by_cases h2 : M < v
        · simp [JsValue.toNumber, JsNum.lt, h, h2, ← hM, hm.mp h]
        · simp [JsValue.toNumber, JsNum.lt, h, h2, hm.mp h, hM.mp h2]

/-- Witness of C2 on `welcome_brightness` (min 0, max 100): 150 is above the
maximum, -5 below the minimum, 80 is accepted. -/
theorem validateSetting_numeric_witness :
    validateSetting "welcome_brightness" (welcomeBrightness (.num 150))
        = some (.maximumValueIs 100) ∧
      validateSetting "welcome_brightness" (welcomeBrightness (.num (-5)))
        = some (.minimumValueIs 0) ∧
      validateSetting "welcome_brightness" (welcomeBrightness (.num 80)) = none :=
  ⟨(validateSetting_numeric "welcome_brightness" (welcomeBrightness (.num 150)) 150
      (Or.inl rfl) rfl (by decide)).2.1 100 rfl (by decide)
      (fun m hm => by cases hm; decide),
    (validateSetting_numeric "welcome_brightness" (welcomeBrightness (.num (-5))) (-5)
      (Or.inl rfl) rfl (by decide)).1 0 rfl (by decide),
    (validateSetting_numeric "welcome_brightness" (welcomeBrightness (.num 80)) 80
      (Or.inl rfl) rfl (by decide)).2.2.mpr
      ⟨fun m hm => by cases hm; decide, fun M hM => by cases hM; decide⟩⟩

/-- C3: for vtype `io.ip` and a string value that the required rule does not
catch, no error is returned if and only if the whole string is four groups of
one to three decimal digits separated by single dots; otherwise the result is
the invalid-format message. Octets are not range-checked. -/
theorem validateSetting_ip (name : String) (setting : Setting) (t : String)
    (hvtype : setting.vtype = "io.ip")
    (hvalue : setting.value = .str t)
    (hreq : ¬ (setting.required = some true ∧ t = "")) :
    (validateSetting name setting = none ↔ IsDottedQuad t.toList) ∧
      (¬ IsDottedQuad t.toList →
        validateSetting name setting = some .invalidIpAddressFormat) := by
  have hcond : ¬ (setting.required = some true ∧
      (setting.value.truthy = false ∨ setting.value.isEmptyString = true)) := by
    rintro ⟨h1, h2⟩
    apply hreq
    refine ⟨h1, ?_⟩
    rw [hvalue] at h2
    simpa [JsValue.truthy, JsValue.isEmptyString] using h2
  have hnum : ¬ (setting.vtype = "number" ∨ setting.vtype = "time.seconds") := by
    rw [hvtype]; decide
  have hval : validateSetting name setting =
      if ipRegexMatches t.toList = false then some .invalidIpAddressFormat else none := by
    unfold validateSetting
    rw [if_neg hcond, if_neg hnum]
    simp [hvtype, hvalue, ipRegexTest]
  rw [hval, ← ipRegexMatches_iff]
  cases ipRegexMatches t.toList <;> simp

/-- Witness of C3 on `device_ip`: "999.1.1" is rejected, "192.168.1.1" and the
out-of-range "999.1.1.1" are accepted. -/
theorem validateSetting_ip_witness :
    validateSetting "device_ip" (deviceIp (.str "999.1.1")) = some .invalidIpAddressFormat ∧
      validateSetting "device_ip" (deviceIp (.str "192.168.1.1")) = none ∧
      validateSetting "device_ip" (deviceIp (.str "999.1.1.1")) = none :=
  ⟨(validateSetting_ip "device_ip" (deviceIp (.str "999.1.1")) "999.1.1" rfl rfl
      (by decide)).2 ((ipRegexMatches_iff _).not.mp (by decide)),
    (validateSetting_ip "device_ip" (deviceIp (.str "192.168.1.1")) "192.168.1.1" rfl rfl
      (by decide)).1.mpr ((ipRegexMatches_iff _).mp (by decide)),
    (validateSetting_ip "device_ip" (deviceIp (.str "999.1.1.1")) "999.1.1.1" rfl rfl
      (by decide)).1.mpr ((ipRegexMatches_iff _).mp (by decide))⟩

/-- C4: a setting whose vtype is none of `number`, `time.seconds` and `io.ip`
and whose `required` is not true is valid whatever its value is. -/
theorem validateSetting_other_vtype (name : String) (setting : Setting)
    (h1 : setting.vtype ≠ "number") (h2 : setting.vtype ≠ "time.seconds")
    (h3 : setting.vtype ≠ "io.ip") (hreq : setting.required ≠ some true) :
    validateSetting name setting = none := by
  unfold validateSetting
  rw [if_neg (fun h => hreq h.1), if_neg (by rintro (h | h) <;> contradiction)]
  simp [h3]

/-- Witness of C4: the `enum` entry `mode` accepts a value that is not among
its `enum_` options. -/
theorem validateSetting_other_vtype_witness :
    "bogus" ∉ ["eco", "normal", "turbo"] ∧
      validateSetting "mode" (modeSetting (.str "bogus")) = none :=
  ⟨by decide,
    validateSetting_other_vtype "mode" (modeSetting (.str "bogus")) (by decide) (by decide)
      (by decide) (by decide)⟩

/-- C5, the failing input: the required `list` setting whose value is the empty
array passes validation, since an empty array is truthy and is not the empty
string; the same test does report `null` and the empty string. -/
theorem validateSetting_required_empty_list :
    validateSetting "linked_devices" { linkedDevices (.list []) with required := some true }
        = none ∧
      validateSetting "linked_devices" { linkedDevices .null with required := some true }
        = some .thisFieldIsRequired ∧
      validateSetting "api_token" { apiToken (.str "") with required := some true }
        = some .thisFieldIsRequired := by
  decide

/-! ## Objects: size and enumeration -/

theorem insertIndex_length (n : Nat) (k : String) (acc : List (Nat × String)) :
    (JsObj.insertIndex n k acc).length = acc.length + 1 := by
  induction acc with
  | nil => rfl
  | cons x xs ih =>
    obtain ⟨m, l⟩ := x
    unfold JsObj.insertIndex
    split
    · rfl
    · simp [ih]

theorem indexKeys_length (ks : List String) (acc : List (Nat × String)) :
    (ks.foldl (fun acc k => match JsObj.arrayIndex k with
        | some n => JsObj.insertIndex n k acc
        | none => acc) acc).length
      + (ks.filter fun k => (JsObj.arrayIndex k).isNone).length = acc.length + ks.length := by
  induction ks generalizing acc with
  | nil => simp
  | cons k ks ih =>
    rw [List.foldl_cons, List.filter_cons]
    cases h : JsObj.arrayIndex k with
    | none =>
      simp only [Option.isNone_none, if_true, List.length_cons]
      have := ih acc
      omega
    | some n =>
      simp only [Option.isNone_some, Bool.false_eq_true, if_false, List.length_cons]
      have := ih (JsObj.insertIndex n k acc)
      rw [insertIndex_length] at this
      omega

theorem keys_length {α : Type} (o : JsObj α) : (JsObj.keys o).length = o.length := by
  unfold JsObj.keys
  have := indexKeys_length (o.map Prod.fst) []
  simp only [List.length_append, List.length_map, List.length_nil] at this ⊢
  omega

theorem define_ne_nil {α : Type} (o : JsObj α) (k : String) (v : α) :
    JsObj.define o k v ≠ [] := by
  cases o with
  | nil => simp [JsObj.define]
  | cons x xs =>
    obtain ⟨k1, v1⟩ := x
    unfold JsObj.define
    split <;> simp

theorem assignPrimitive_ne_nil {α : Type} (o : JsObj α) (k : String) (v : α) (h : o ≠ []) :
    JsObj.assignPrimitive o k v ≠ [] := by
  unfold JsObj.assignPrimitive
  split
  · exact h
  · exact define_ne_nil o k v

theorem collectErrors_foldl_ne_nil (settings : List SettingItem)
    (acc : JsObj (Option ErrorMessage)) (h : acc ≠ []) :
    settings.foldl (fun newErrors item =>
      match validateSetting item.name item.setting with
      | some error => JsObj.assignPrimitive newErrors item.name (some error)
      | none => newErrors) acc ≠ [] := by
  induction settings generalizing acc with
  | nil => exact h
  | cons x xs ih =>
    rw [List.foldl_cons]
    apply ih
    cases validateSetting x.name x.setting with
    | none => exact h
    | some e => exact assignPrimitive_ne_nil acc x.name (some e) h

theorem collectErrors_foldl_invalid (settings : List SettingItem)
    (acc : JsObj (Option ErrorMessage))
    (h : ∃ item ∈ settings, validateSetting item.name item.setting ≠ none ∧
      item.name ≠ "__proto__") :
    settings.foldl (fun newErrors item =>
      match validateSetting item.name item.setting with
      | some error => JsObj.assignPrimitive newErrors item.name (some error)
      | none => newErrors) acc ≠ [] := by
  induction settings generalizing acc with
  | nil =>
    obtain ⟨item, hmem, _⟩ := h
    cases hmem
  | cons x xs ih =>
    rw [List.foldl_cons]
    obtain ⟨item, hmem, hinv, hname⟩ := h
    rcases List.mem_cons.mp hmem with rfl | hmem
    · apply collectErrors_foldl_ne_nil
      cases hv : validateSetting item.name item.setting with
      | none => exact absurd hv hinv
      | some e =>
        simp only [JsObj.assignPrimitive, hname, false_and, if_false]
        exact define_ne_nil acc item.name (some e)
    · exact ih _ ⟨item, hmem, hinv, hname⟩

/-- When a setting whose name is not `__proto__` fails validation, `handleSave`
publishes the collected errors and stops: `saveSettings` is not called, and
`data`, `originalData` and `saving` are left as they were. -/
theorem handleSave_stops_on_invalid (saveSettings : Data → SaveOutcome) (s : State)
    (h : ∃ item ∈ s.data.settings, validateSetting item.name item.setting ≠ none ∧
      item.name ≠ "__proto__") :
    (handleSave saveSettings s).2 = [] ∧
      (handleSave saveSettings s).1.data = s.data ∧
      (handleSave saveSettings s).1.originalData = s.originalData ∧
      (handleSave saveSettings s).1.saving = s.saving ∧
      (handleSave saveSettings s).1.errors = collectErrors s.data.settings := by
  have hne : collectErrors s.data.settings ≠ [] := collectErrors_foldl_invalid _ [] h
  have hpos : (JsObj.keys (collectErrors s.data.settings)).length > 0 := by
    rw [keys_length]
    exact List.length_pos.mpr hne
  have hb : handleSaveBegin s = ({ s with errors := collectErrors s.data.settings }, none) := by
    unfold handleSaveBegin
    simp only [hpos, if_true]
  unfold handleSave
  rw [hb]
  exact ⟨rfl, rfl, rfl, rfl, rfl⟩

/-! ## Edits -/

theorem updateSetting_originalData (index : Nat) (newValue : JsValue) (s s1 : State)
    (h : updateSetting index newValue s = .ok s1) : s1.originalData = s.originalData := by
  unfold updateSetting at h
  cases hget : s.data.settings.get? index with
  | none => rw [hget] at h; cases h
  | some item => rw [hget] at h; cases h; rfl

theorem updateConstant_originalData (index : Nat) (newValue : String) (s s1 : State)
    (h : updateConstant index newValue s = .ok s1) : s1.originalData = s.originalData := by
  unfold updateConstant at h
  cases hget : s.data.constants.get? index with
  | none => rw [hget] at h; cases h
  | some c => rw [hget] at h; cases h; rfl

theorem applyEdit_originalData (s : State) (e : Edit) :
    (applyEdit s e).originalData = s.originalData := by
  cases e with
  | setting index newValue =>
    simp only [applyEdit]
    cases h : updateSetting index newValue s with
    | ok s1 => exact updateSetting_originalData index newValue s s1 h
    | error _ => rfl
  | constant index newValue =>
    simp only [applyEdit]
    cases h : updateConstant index newValue s with
    | ok s1 => exact updateConstant_originalData index newValue s s1 h
    | error _ => rfl

theorem applyEdits_originalData (edits : List Edit) (s : State) :
    (applyEdits s edits).originalData = s.originalData := by
  induction edits generalizing s with
  | nil => rfl
  | cons e es ih =>
    show (applyEdits (applyEdit s e) es).originalData = s.originalData
    rw [ih, applyEdit_originalData]

/-! ## The error object built by handleSave -/

theorem collectErrors_foldl_nil (settings : List SettingItem)
    (hvalid : ∀ item ∈ settings, validateSetting item.name item.setting = none) :
    settings.foldl (fun newErrors item =>
      match validateSetting item.name item.setting with
      | some error => JsObj.assignPrimitive newErrors item.name (some error)
      | none => newErrors) ([] : JsObj (Option ErrorMessage)) = [] := by
  induction settings with
  | nil => rfl
  | cons x xs ih =>
    rw [List.foldl_cons, hvalid x (List.mem_cons_self x xs)]
    exact ih fun item hitem => hvalid item (List.mem_cons_of_mem x hitem)

theorem collectErrors_of_valid (settings : List SettingItem)
    (hvalid : ∀ item ∈ settings, validateSetting item.name item.setting = none) :
    collectErrors settings = [] :=
  collectErrors_foldl_nil settings hvalid

theorem handleSaveBegin_of_valid (s : State)
    (hvalid : ∀ item ∈ s.data.settings, validateSetting item.name item.setting = none) :
    handleSaveBegin s = ({ s with saving := true }, some s.data) := by
  unfold handleSaveBegin
  rw [collectErrors_of_valid _ hvalid]
  rfl

/-! ## Session properties -/

/-- C6: right after `loadData` the working copy serialises to the same text as
the baseline, so `hasChanges()` is false. -/
theorem hasChanges_loadData (result : Data) (s : State) :
    hasChanges (loadData result s) = false := by
  rw [hasChanges_eq_false_iff]
  exact (jsonParse_jsonStringify result).symm

/-- C7: after a load and any sequence of `updateSetting` and `updateConstant`
edits, `handleCancel` yields a state whose working copy equals the baseline,
which still is the loaded schema: every setting and constant has its pre-edit
value, the error object is empty and `hasChanges()` is false. -/
theorem handleCancel_after_edits (result : Data) (s0 : State) (edits : List Edit) :
    (handleCancel (applyEdits (loadData result s0) edits)).data
        = (handleCancel (applyEdits (loadData result s0) edits)).originalData ∧
      (handleCancel (applyEdits (loadData result s0) edits)).originalData
        = (loadData result s0).originalData ∧
      (handleCancel (applyEdits (loadData result s0) edits)).data.settings.map
          (fun x => (x.name, x.setting.value))
        = result.settings.map (fun x => (x.name, x.setting.value)) ∧
      (handleCancel (applyEdits (loadData result s0) edits)).data.constants.map
          (fun c => (c.name, c.value))
        = result.constants.map (fun c => (c.name, c.value)) ∧
      (handleCancel (applyEdits (loadData result s0) edits)).errors = [] ∧
      hasChanges (handleCancel (applyEdits (loadData result s0) edits)) = false := by
  have horig : (applyEdits (loadData result s0) edits).originalData = result := by
    rw [applyEdits_originalData]
    exact jsonParse_jsonStringify result
  have hdata : (handleCancel (applyEdits (loadData result s0) edits)).data = result := by
    show jsonParse (jsonStringify (applyEdits (loadData result s0) edits).originalData) = result
    rw [jsonParse_jsonStringify, horig]
  have horig2 : (handleCancel (applyEdits (loadData result s0) edits)).originalData = result :=
    horig
  refine ⟨by rw [hdata, horig2], ?_, by rw [hdata], by rw [hdata], rfl, ?_⟩
  · rw [horig2]
    exact (jsonParse_jsonStringify result).symm
  · rw [hasChanges_eq_false_iff, hdata, horig2]

/-- C8, the failing input: in the session `protoState` the only setting fails
validation and is named `__proto__`; the assignment into the fresh error
object is swallowed by the inherited setter, so `handleSave` calls
`saveSettings` with the working copy and commits it as the new baseline. -/
theorem handleSave_proto_named_setting :
    (∃ item ∈ protoState.data.settings, validateSetting item.name item.setting ≠ none) ∧
      hasChanges protoState = true ∧
      (handleSave (fun _ => SaveOutcome.resolved) protoState).2 = [protoState.data] ∧
      (handleSave (fun _ => SaveOutcome.resolved) protoState).1.originalData
        = protoState.data ∧
      protoState.originalData ≠ protoState.data ∧
      hasChanges (handleSave (fun _ => SaveOutcome.resolved) protoState).1 = false := by
  decide

/-- C9, the failing input: in the session `protoStateHidden`, reached by an edit
of the visible `welcome_brightness` card, the settings `__proto__` and
`welcome_brightness` both fail validation under distinct names. The card of
`__proto__` is not rendered, the working copy is dirty and nothing is being
saved, so a click on Save runs `handleSave`; the error object it publishes has
the single key `welcome_brightness`. -/
theorem handleSave_errors_miss_proto :
    (protoStateHidden.data.settings.map fun item => item.name)
        = ["__proto__", "welcome_brightness"] ∧
      (protoStateHidden.data.settings.map fun item => validateSetting item.name item.setting)
        = [some .thisFieldIsRequired, some (.maximumValueIs 100)] ∧
      (protoStateHidden.data.settings.map fun item => renderSetting protoStateHidden item)
        = [none, some
            { name := "welcome_brightness"
              description := "Brightness level for the welcome light"
              requiredMark := false
              advancedBadge := false
              input := .numberInput
              showsError := true }] ∧
      (groupedSettings protoStateHidden).toOption.map JsObj.keys = some ["General"] ∧
      hasChanges protoStateHidden = true ∧
      protoStateHidden.saving = false ∧
      (clickSave (fun _ => SaveOutcome.resolved) protoStateHidden).2 = [] ∧
      (clickSave (fun _ => SaveOutcome.resolved) protoStateHidden).1.errors
        = [("welcome_brightness", some (.maximumValueIs 100))] ∧
      (handleSave (fun _ => SaveOutcome.resolved) protoStateHidden).1.errors
        = [("welcome_brightness", some (.maximumValueIs 100))] ∧
      JsObj.keys (handleSave (fun _ => SaveOutcome.resolved) protoStateHidden).1.errors
        = ["welcome_brightness"] := by
  decide

/-- C10: when every setting of the working copy is valid and the collaborator
resolves, `handleSave` calls it once with the working copy and ends with the
baseline equal to the working copy, the working copy unchanged, an empty error
object, `saving` false and `hasChanges()` false. -/
theorem handleSave_valid_resolved (saveSettings : Data → SaveOutcome) (s : State)
    (hvalid : ∀ item ∈ s.data.settings, validateSetting item.name item.setting = none)
    (hok : saveSettings s.data = .resolved) :
    (handleSave saveSettings s).2 = [s.data] ∧
      (handleSave saveSettings s).1.originalData = (handleSave saveSettings s).1.data ∧
      (handleSave saveSettings s).1.data = s.data ∧
      (handleSave saveSettings s).1.errors = [] ∧
      (handleSave saveSettings s).1.saving = false ∧
      hasChanges (handleSave saveSettings s).1 = false := by
  have h : handleSave saveSettings s = (handleSaveResume s.data { s with saving := true },
      [s.data]) := by
    unfold handleSave
    rw [handleSaveBegin_of_valid s hvalid]
    simp only [hok]
  rw [h]
  refine ⟨rfl, ?_, rfl, rfl, rfl, ?_⟩
  · exact jsonParse_jsonStringify s.data
  · rw [hasChanges_eq_false_iff]
    exact (jsonParse_jsonStringify s.data).symm

/-- Witness of C10: the example schema, valid as loaded, is saved and committed after a
constant has been edited. -/
theorem handleSave_valid_resolved_witness :
    hasChanges (applyEdits (loadData fetchSettingsExample State.initial)
        [.constant 0 "192.168.1.43"]) = true ∧
      (handleSave (fun _ => SaveOutcome.resolved)
        (applyEdits (loadData fetchSettingsExample State.initial)
          [.constant 0 "192.168.1.43"])).1.saving = false ∧
      hasChanges (handleSave (fun _ => SaveOutcome.resolved)
        (applyEdits (loadData fetchSettingsExample State.initial)
          [.constant 0 "192.168.1.43"])).1 = false :=
  ⟨by decide,
    (handleSave_valid_resolved (fun _ => SaveOutcome.resolved)
      (applyEdits (loadData fetchSettingsExample State.initial) [.constant 0 "192.168.1.43"])
      (by decide) rfl).2.2.2.2.1,
    (handleSave_valid_resolved (fun _ => SaveOutcome.resolved)
      (applyEdits (loadData fetchSettingsExample State.initial) [.constant 0 "192.168.1.43"])
      (by decide) rfl).2.2.2.2.2⟩


/-! ## Shape of the handlers -/

theorem list_set_self {α : Type} (l : List α) (i : Nat) (a : α) (h : l.get? i = some a) :
    l.set i a = l := by
  apply List.ext_get?
  intro n
  by_cases hn : i = n
  · subst hn
    rw [h]
    simp only [List.get?_eq_getElem?] at h ⊢
    rw [List.getElem?_set_self']
    simp [h]
  · simp only [List.get?_eq_getElem?]
    rw [List.getElem?_set_ne hn]

theorem updateSetting_eq (index : Nat) (newValue : JsValue) (s : State) (item : SettingItem)
    (h : s.data.settings.get? index = some item) :
    updateSetting index newValue s = .ok
      { s with
        data := { s.data with settings := s.data.settings.set index (item.withValue newValue) },
        errors := JsObj.define s.errors item.name
          (validateSetting item.name (item.withValue newValue).setting) } := by
  unfold updateSetting
  rw [h]
  rfl

theorem updateSetting_ok_inv (index : Nat) (newValue : JsValue) (s s1 : State)
    (h : updateSetting index newValue s = .ok s1) :
    ∃ item, s.data.settings.get? index = some item ∧
      s1 = { s with
        data := { s.data with settings := s.data.settings.set index (item.withValue newValue) },
        errors := JsObj.define s.errors item.name
          (validateSetting item.name (item.withValue newValue).setting) } := by
  cases hget : s.data.settings.get? index with
  | none =>
    unfold updateSetting at h
    rw [hget] at h
    cases h
  | some item =>
    rw [updateSetting_eq index newValue s item hget] at h
    cases h
    exact ⟨item, rfl, rfl⟩

theorem updateConstant_eq (index : Nat) (newValue : String) (s : State) (c : Constant)
    (h : s.data.constants.get? index = some c) :
    updateConstant index newValue s = .ok
      { s with data :=
          { s.data with constants := s.data.constants.set index { c with value := newValue } } } := by
  unfold updateConstant
  rw [h]

theorem updateConstant_ok_inv (index : Nat) (newValue : String) (s s1 : State)
    (h : updateConstant index newValue s = .ok s1) :
    ∃ c, s.data.constants.get? index = some c ∧
      s1 = { s with data :=
          { s.data with constants := s.data.constants.set index { c with value := newValue } } } := by
  cases hget : s.data.constants.get? index with
  | none =>
    unfold updateConstant at h
    rw [hget] at h
    cases h
  | some c =>
    rw [updateConstant_eq index newValue s c hget] at h
    cases h
    exact ⟨c, rfl, rfl⟩

theorem handleSave_cases (saveSettings : Data → SaveOutcome) (s : State) :
    handleSave saveSettings s = ({ s with errors := collectErrors s.data.settings }, []) ∨
      handleSave saveSettings s = ({ s with saving := true }, [s.data]) ∨
      handleSave saveSettings s = (handleSaveResume s.data { s with saving := true }, [s.data]) := by
  unfold handleSave handleSaveBegin
  by_cases h : (JsObj.keys (collectErrors s.data.settings)).length > 0
  · left
    simp only [h, if_true]
  · right
    simp only [h, if_false]
    cases saveSettings s.data
    · right; rfl
    · left; rfl

theorem handleSave_stopped (saveSettings : Data → SaveOutcome) (s : State)
    (h : (handleSaveBegin s).2 = none) :
    handleSave saveSettings s = ({ s with errors := collectErrors s.data.settings }, []) := by
  unfold handleSave
  unfold handleSaveBegin at h ⊢
  by_cases hk : (JsObj.keys (collectErrors s.data.settings)).length > 0
  · simp only [hk, if_true]
  · simp only [hk, if_false] at h
    cases h

theorem handleSave_valid_rejected_eq (saveSettings : Data → SaveOutcome) (s : State)
    (hvalid : ∀ item ∈ s.data.settings, validateSetting item.name item.setting = none)
    (hrej : saveSettings s.data = .rejected) :
    handleSave saveSettings s = ({ s with saving := true }, [s.data]) := by
  unfold handleSave
  rw [handleSaveBegin_of_valid s hvalid]
  simp only [hrej]

/-! ## A failed save -/

/-- C11: when every setting is valid and the promise of the collaborator is
rejected, `handleSave` has called it with the working copy and leaves `data`,
`originalData` and the error object as they were, so `hasChanges()` keeps its
value. -/
theorem handleSave_valid_rejected (saveSettings : Data → SaveOutcome) (s : State)
    (hvalid : ∀ item ∈ s.data.settings, validateSetting item.name item.setting = none)
    (hrej : saveSettings s.data = .rejected) :
    (handleSave saveSettings s).2 = [s.data] ∧
      (handleSave saveSettings s).1.data = s.data ∧
      (handleSave saveSettings s).1.originalData = s.originalData ∧
      (handleSave saveSettings s).1.errors = s.errors ∧
      hasChanges (handleSave saveSettings s).1 = hasChanges s := by
  rw [handleSave_valid_rejected_eq saveSettings s hvalid hrej]
  exact ⟨rfl, rfl, rfl, rfl, rfl⟩

/-- Witness of C11: the edited example session keeps its edit and stays dirty when
the save is rejected. -/
theorem handleSave_valid_rejected_witness :
    hasChanges editedExample = true ∧
      (handleSave (fun _ => SaveOutcome.rejected) editedExample).1.data = editedExample.data ∧
      hasChanges (handleSave (fun _ => SaveOutcome.rejected) editedExample).1
        = hasChanges editedExample :=
  ⟨by decide,
    (handleSave_valid_rejected (fun _ => SaveOutcome.rejected) editedExample
      (by decide) rfl).2.1,
    (handleSave_valid_rejected (fun _ => SaveOutcome.rejected) editedExample
      (by decide) rfl).2.2.2.2⟩

/-- C12, the failing input: after the rejected save of the edited example session
`saving` is still true, although there are unsaved changes; the Save button
stays disabled and a click on it reaches no collaborator, even one that would
resolve. -/
theorem handleSave_rejected_keeps_saving :
    (∀ item ∈ editedExample.data.settings, validateSetting item.name item.setting = none) ∧
      (handleSave (fun _ => SaveOutcome.rejected) editedExample).2 = [editedExample.data] ∧
      (handleSave (fun _ => SaveOutcome.rejected) editedExample).1.saving = true ∧
      hasChanges (handleSave (fun _ => SaveOutcome.rejected) editedExample).1 = true ∧
      (clickSave (fun _ => SaveOutcome.resolved)
        (handleSave (fun _ => SaveOutcome.rejected) editedExample).1).2 = [] := by
  decide

/-- C13, counterexample: `handleSave` itself has no guard. Run in the state
`failedSaveExample`, whose `saving` is true, it calls the collaborator and
replaces the baseline. -/
theorem handleSave_ignores_saving :
    failedSaveExample.saving = true ∧
      (handleSave (fun _ => SaveOutcome.resolved) failedSaveExample).2
        = [failedSaveExample.data] ∧
      (handleSave (fun _ => SaveOutcome.resolved) failedSaveExample).1.originalData
        ≠ failedSaveExample.originalData := by
  decide

/-- C13, amended: in a state whose `saving` is true a click on the Save button,
which is disabled, runs no handler: the collaborator is not called and the state,
with its working copy, baseline and error object, is what it was. -/
theorem clickSave_while_saving (saveSettings : Data → SaveOutcome) (s : State)
    (h : s.saving = true) : clickSave saveSettings s = (s, []) := by
  unfold clickSave
  rw [if_neg]
  rintro ⟨_, h2⟩
  rw [h] at h2
  cases h2

/-- Witness of C13 amended, in the state left by the rejected save. -/
theorem clickSave_while_saving_witness :
    failedSaveExample.saving = true ∧
      clickSave (fun _ => SaveOutcome.resolved) failedSaveExample = (failedSaveExample, []) :=
  ⟨by decide, clickSave_while_saving (fun _ => SaveOutcome.resolved) failedSaveExample (by decide)⟩

/-! ## Working copy and baseline differ in values only -/

theorem get_map {α β : Type} (f : α → β) (l : List α) (n : Nat) :
    (l.map f).get? n = (l.get? n).map f := by
  simp only [List.get?_eq_getElem?, List.getElem?_map]

theorem sameShape_refl (a : Data) : SameShape a a := ⟨rfl, rfl, rfl⟩

theorem withValue_withValue (x : SettingItem) (v w : JsValue) :
    (x.withValue v).withValue w = x.withValue w := rfl

theorem withValue_self (x : SettingItem) : x.withValue x.setting.value = x := rfl

theorem settings_shape_set (l : List SettingItem) (i : Nat) (item : SettingItem) (v : JsValue)
    (h : l.get? i = some item) :
    (l.set i (item.withValue v)).map (fun x => x.withValue .undefined)
      = l.map (fun x => x.withValue .undefined) := by
  rw [List.map_set, withValue_withValue]
  apply list_set_self
  rw [get_map, h]
  rfl

theorem constants_shape_set (l : List Constant) (i : Nat) (c : Constant) (v : String)
    (h : l.get? i = some c) :
    (l.set i { c with value := v }).map (fun c => c.name) = l.map (fun c => c.name) := by
  rw [List.map_set]
  apply list_set_self
  rw [get_map, h]
  rfl

theorem reachable_sameShape (s : State) (h : Reachable s) : SameShape s.data s.originalData := by
  induction h with
  | afterLoad result s0 =>
    show SameShape result (jsonParse (jsonStringify result))
    rw [jsonParse_jsonStringify]
    exact sameShape_refl result
  | afterUpdateSetting index newValue _ hupd ih =>
    obtain ⟨item, hget, rfl⟩ := updateSetting_ok_inv index newValue _ _ hupd
    obtain ⟨h1, h2, h3⟩ := ih
    refine ⟨h1, ?_, h3⟩
    show (List.set _ index (item.withValue newValue)).map _ = _
    rw [settings_shape_set _ index item newValue hget]
    exact h2
  | afterUpdateConstant index newValue _ hupd ih =>
    obtain ⟨c, hget, rfl⟩ := updateConstant_ok_inv index newValue _ _ hupd
    obtain ⟨h1, h2, h3⟩ := ih
    refine ⟨h1, h2, ?_⟩
    show (List.set _ index { c with value := newValue }).map _ = _
    rw [constants_shape_set _ index c newValue hget]
    exact h3
  | @afterHandleSave s saveSettings _ ih =>
    rcases handleSave_cases saveSettings s with h | h | h <;> rw [h]
    · exact ih
    · exact ih
    · show SameShape s.data (jsonParse (jsonStringify s.data))
      rw [jsonParse_jsonStringify]
      exact sameShape_refl _
  | @afterHandleCancel s _ _ =>
    show SameShape (jsonParse (jsonStringify s.originalData)) s.originalData
    rw [jsonParse_jsonStringify]
    exact sameShape_refl _

theorem list_eq_of_map_eq {α β γ : Type} (f : α → β) (g : α → γ)
    (hinj : ∀ x y, f x = f y → g x = g y → x = y) :
    ∀ xs ys : List α, xs.map f = ys.map f → xs.map g = ys.map g → xs = ys
  | [], [], _, _ => rfl
  | [], _ :: _, h, _ => by simp at h
  | _ :: _, [], h, _ => by simp at h
  | x :: xs, y :: ys, h1, h2 => by
    simp only [List.map_cons, List.cons.injEq] at h1 h2
    rw [hinj x y h1.1 h2.1, list_eq_of_map_eq f g hinj xs ys h1.2 h2.2]

theorem map_ne_iff_exists_get {α β : Type} (g : α → β) (xs ys : List α) :
    xs.map g ≠ ys.map g ↔ ∃ i, (xs.get? i).map g ≠ (ys.get? i).map g := by
  constructor
  · intro h
    by_contra hall
    apply h
    apply List.ext_get?
    intro n
    rw [get_map, get_map]
    by_contra hn
    exact hall ⟨n, hn⟩
  · rintro ⟨i, hi⟩ h
    apply hi
    rw [← get_map, ← get_map, h]

theorem settingItem_eq_of_shape_value (x y : SettingItem)
    (h1 : x.withValue .undefined = y.withValue .undefined)
    (h2 : x.setting.value = y.setting.value) : x = y := by
  obtain ⟨xn, ⟨xv, x1, x2, x3, x4, x5, x6, x7, x8, x9⟩⟩ := x
  obtain ⟨yn, ⟨yv, y1, y2, y3, y4, y5, y6, y7, y8, y9⟩⟩ := y
  simp only [SettingItem.withValue, SettingItem.mk.injEq, Setting.mk.injEq, true_and] at h1
  simp only at h2
  obtain ⟨rfl, rfl, rfl, rfl, rfl, rfl, rfl, rfl, rfl, rfl⟩ := h1
  rw [h2]

theorem constant_eq_of_name_value (x y : Constant) (h1 : x.name = y.name)
    (h2 : x.value = y.value) : x = y := by
  obtain ⟨xn, xv⟩ := x
  obtain ⟨yn, yv⟩ := y
  simp only at h1 h2
  rw [h1, h2]

theorem data_ne_iff_of_sameShape (a b : Data) (h : SameShape a b) :
    a ≠ b ↔
      (∃ i, (a.settings.get? i).map (fun x => x.setting.value)
          ≠ (b.settings.get? i).map (fun x => x.setting.value)) ∨
      (∃ i, (a.constants.get? i).map (fun c => c.value)
          ≠ (b.constants.get? i).map (fun c => c.value)) := by
  obtain ⟨h1, h2, h3⟩ := h
  rw [← map_ne_iff_exists_get, ← map_ne_iff_exists_get]
  constructor
  · intro hne
    by_contra hall
    rw [not_or, not_not, not_not] at hall
    apply hne
    obtain ⟨ak, as, ac⟩ := a
    obtain ⟨bk, bs, bc⟩ := b
    simp only at h1 h2 h3 hall
    rw [h1, list_eq_of_map_eq _ _ settingItem_eq_of_shape_value as bs h2 hall.1,
      list_eq_of_map_eq _ _ constant_eq_of_name_value ac bc h3 hall.2]
  · rintro (hne | hne) rfl <;> exact hne rfl

/-! ## Dirtiness, edits and frames -/

/-- C14: in every state reached from `loadData` by `updateSetting`, `updateConstant`,
`handleSave` and `handleCancel`, `hasChanges()` is true exactly when the value of
some setting or of some constant differs from the value at the same position of
the baseline; the `skill` metadata is the same on both sides. -/
theorem hasChanges_iff_value_differs (s : State) (h : Reachable s) :
    (hasChanges s = true ↔
      (∃ i, (s.data.settings.get? i).map (fun x => x.setting.value)
          ≠ (s.originalData.settings.get? i).map (fun x => x.setting.value)) ∨
      (∃ i, (s.data.constants.get? i).map (fun c => c.value)
          ≠ (s.originalData.constants.get? i).map (fun c => c.value))) ∧
      s.data.skill = s.originalData.skill := by
  have hshape := reachable_sameShape s h
  exact ⟨(hasChanges_iff s).trans (data_ne_iff_of_sameShape _ _ hshape), hshape.1⟩

/-- Witness of C14: the example session, one constant edited, is reachable and
dirty because of the value of that constant. -/
theorem hasChanges_iff_value_differs_witness :
    hasChanges editedExample = true ∧
      (editedExample.data.constants.get? 0).map (fun c => c.value)
        ≠ (editedExample.originalData.constants.get? 0).map (fun c => c.value) :=
  ⟨(hasChanges_iff_value_differs editedExample
      (Reachable.afterUpdateConstant 0 "192.168.1.43"
        (Reachable.afterLoad fetchSettingsExample State.initial) rfl)).1.mpr
      (Or.inr ⟨0, by decide⟩),
    by decide⟩

theorem data_ext (a b : Data) (h1 : a.skill = b.skill) (h2 : a.settings = b.settings)
    (h3 : a.constants = b.constants) : a = b := by
  obtain ⟨ak, as, ac⟩ := a
  obtain ⟨bk, bs, bc⟩ := b
  simp only at h1 h2 h3
  rw [h1, h2, h3]

theorem updateSetting_spec (index : Nat) (newValue : JsValue) (s : State) (item : SettingItem)
    (h : s.data.settings.get? index = some item) :
    ∃ s1, updateSetting index newValue s = .ok s1 ∧
      s1.data.settings = s.data.settings.set index (item.withValue newValue) ∧
      s1.data.skill = s.data.skill ∧ s1.data.constants = s.data.constants ∧
      s1.originalData = s.originalData ∧
      s1.errors = JsObj.define s.errors item.name
        (validateSetting item.name (item.withValue newValue).setting) ∧
      s1.saving = s.saving ∧ s1.showAdvanced = s.showAdvanced ∧
      s1.collapsedGroups = s.collapsedGroups :=
  ⟨_, updateSetting_eq index newValue s item h, rfl, rfl, rfl, rfl, rfl, rfl, rfl, rfl⟩

theorem get_set_self {α : Type} (l : List α) (i : Nat) (a b : α) (h : l.get? i = some a) :
    (l.set i b).get? i = some b := by
  have hlen : i < l.length := by
    rcases Nat.lt_or_ge i l.length with h1 | h1
    · exact h1
    · rw [List.get?_eq_none.mpr h1] at h
      cases h
  simp only [List.get?_eq_getElem?]
  exact List.getElem?_set_self hlen

theorem hasChanges_congr (s t : State) (h1 : s.data = t.data)
    (h2 : s.originalData = t.originalData) : hasChanges s = hasChanges t := by
  unfold hasChanges
  rw [h1, h2]

/-- C15: `updateSetting(i, v)` with `v` the current value of setting `i` leaves
the working copy as it is, so `hasChanges()` keeps its value; and in a clean
state, `updateSetting(i, w)` followed by `updateSetting(i, b)` with `b` the
baseline value of setting `i` ends clean again. -/
theorem updateSetting_same_value (s : State) (i : Nat) (item : SettingItem)
    (hi : s.data.settings.get? i = some item) :
    (∃ s1, updateSetting i item.setting.value s = .ok s1 ∧ s1.data = s.data ∧
        hasChanges s1 = hasChanges s) ∧
      (hasChanges s = false → ∀ w b : JsValue,
        (s.originalData.settings.get? i).map (fun x => x.setting.value) = some b →
        ∃ s1 s2, updateSetting i w s = .ok s1 ∧ updateSetting i b s1 = .ok s2 ∧
          s2.data = s.data ∧ hasChanges s2 = false) := by
  constructor
  · obtain ⟨s1, h1, hs, hk, hc, ho, _⟩ := updateSetting_spec i item.setting.value s item hi
    have hd : s1.data = s.data := by
      apply data_ext _ _ hk _ hc
      rw [hs, withValue_self, list_set_self _ i item hi]
    exact ⟨s1, h1, hd, hasChanges_congr s1 s hd ho⟩
  · intro hclean w b hb
    have heq : s.data = s.originalData := (hasChanges_eq_false_iff s).mp hclean
    rw [← heq, hi] at hb
    simp only [Option.map_some', Option.some.injEq] at hb
    subst hb
    obtain ⟨s1, h1, hs1, hk1, hc1, ho1, _⟩ := updateSetting_spec i w s item hi
    have hget1 : s1.data.settings.get? i = some (item.withValue w) := by
      rw [hs1]
      exact get_set_self _ i item _ hi
    obtain ⟨s2, h2, hs2, hk2, hc2, ho2, _⟩ :=
      updateSetting_spec i item.setting.value s1 (item.withValue w) hget1
    have hd : s2.data = s.data := by
      apply data_ext _ _ (hk2.trans hk1) _ (hc2.trans hc1)
      rw [hs2, hs1, List.set_set, withValue_withValue, withValue_self, list_set_self _ i item hi]
    refine ⟨s1, s2, h1, h2, hd, ?_⟩
    rw [hasChanges_eq_false_iff, hd, ho2, ho1]
    exact heq

/-- Witness of C15 on the freshly loaded example: writing 80 over the 80 of
`welcome_brightness` changes nothing, and writing 10 then 80 ends clean. -/
theorem updateSetting_same_value_witness :
    hasChanges (loadData fetchSettingsExample State.initial) = false ∧
      (∃ s1, updateSetting 0 (.num 80) (loadData fetchSettingsExample State.initial) = .ok s1 ∧
        s1.data = (loadData fetchSettingsExample State.initial).data ∧
        hasChanges s1 = hasChanges (loadData fetchSettingsExample State.initial)) ∧
      (∃ s1 s2, updateSetting 0 (.num 10) (loadData fetchSettingsExample State.initial) = .ok s1 ∧
        updateSetting 0 (.num 80) s1 = .ok s2 ∧
        s2.data = (loadData fetchSettingsExample State.initial).data ∧
        hasChanges s2 = false) :=
  ⟨by decide,
    (updateSetting_same_value (loadData fetchSettingsExample State.initial) 0
      { name := "welcome_brightness", setting := welcomeBrightness (.num 80) } rfl).1,
    (updateSetting_same_value (loadData fetchSettingsExample State.initial) 0
      { name := "welcome_brightness", setting := welcomeBrightness (.num 80) } rfl).2
      (by decide) (.num 10) (.num 80) (by decide)⟩

/-- C16: for an index in range, `updateSetting(i, v)` puts `v` as the value of
setting `i`, valid or not, and keeps everything else of the working copy: the
name and every other property of setting `i`, each other setting, the number
and order of the settings, the constants and the `skill` metadata. -/
theorem updateSetting_frame (s : State) (i : Nat) (v : JsValue) (item : SettingItem)
    (hi : s.data.settings.get? i = some item) :
    ∃ s1, updateSetting i v s = .ok s1 ∧
      s1.data.settings.get? i = some
        { name := item.name,
          setting :=
            { value := v, required := item.setting.required, min := item.setting.min,
              max := item.setting.max, vtype := item.setting.vtype, ui := item.setting.ui,
              enum_ := item.setting.enum_, advanced := item.setting.advanced,
              group := item.setting.group, description := item.setting.description } } ∧
      (∀ j, j ≠ i → s1.data.settings.get? j = s.data.settings.get? j) ∧
      s1.data.settings.length = s.data.settings.length ∧
      s1.data.constants = s.data.constants ∧
      s1.data.skill = s.data.skill := by
  obtain ⟨s1, h1, hs, hk, hc, _⟩ := updateSetting_spec i v s item hi
  refine ⟨s1, h1, ?_, ?_, ?_, hc, hk⟩
  · rw [hs]
    exact get_set_self _ i item _ hi
  · intro j hj
    rw [hs]
    simp only [List.get?_eq_getElem?]
    exact List.getElem?_set_ne (Ne.symm hj)
  · rw [hs, List.length_set]

/-- Witness of C16 on the loaded example: 150 is written into `welcome_brightness`
although it is above the maximum; the next entry is untouched. -/
theorem updateSetting_frame_witness :
    validateSetting "welcome_brightness" (welcomeBrightness (.num 150)) ≠ none ∧
      ∃ s1, updateSetting 0 (.num 150) (loadData fetchSettingsExample State.initial) = .ok s1 ∧
        s1.data.settings.get? 0 = some
          { name := "welcome_brightness", setting := welcomeBrightness (.num 150) } ∧
        s1.data.settings.get? 1 = fetchSettingsExample.settings.get? 1 ∧
        s1.data.constants = fetchSettingsExample.constants :=
  ⟨by decide,
    (updateSetting_frame (loadData fetchSettingsExample State.initial) 0 (.num 150)
      { name := "welcome_brightness", setting := welcomeBrightness (.num 80) } rfl).elim
      fun s1 h => ⟨s1, h.1, h.2.1, h.2.2.1 1 (by decide), h.2.2.2.2.1⟩⟩

theorem getOwn_define_self {α : Type} (o : JsObj α) (k : String) (v : α) :
    JsObj.getOwn (JsObj.define o k v) k = some v := by
  induction o with
  | nil => simp [JsObj.define, JsObj.getOwn]
  | cons x xs ih =>
    obtain ⟨k1, v1⟩ := x
    unfold JsObj.define
    by_cases h : k1 = k
    · simp [h, JsObj.getOwn]
    · simp [h, JsObj.getOwn, ih]

theorem getOwn_define_ne {α : Type} (o : JsObj α) (k l : String) (v : α) (hne : l ≠ k) :
    JsObj.getOwn (JsObj.define o k v) l = JsObj.getOwn o l := by
  induction o with
  | nil => simp [JsObj.define, JsObj.getOwn, Ne.symm hne]
  | cons x xs ih =>
    obtain ⟨k1, v1⟩ := x
    unfold JsObj.define
    by_cases h : k1 = k
    · have h2 : k1 ≠ l := fun e => hne (e ▸ h)
      simp [h, JsObj.getOwn, Ne.symm hne]
    · by_cases h2 : k1 = l
      · subst h2
        simp [h, JsObj.getOwn]
      · simp [h, JsObj.getOwn, h2, ih]

/-- C17: for an index in range, after `updateSetting(i, v)` the entry of the
error object under the name of setting `i` is what `validateSetting` returns for
that setting with its value replaced by `v` (`null`, here `none`, when it is
valid), and the entry under every other name is what it was. -/
theorem updateSetting_error_entry (s : State) (i : Nat) (v : JsValue) (item : SettingItem)
    (hi : s.data.settings.get? i = some item) :
    ∃ s1, updateSetting i v s = .ok s1 ∧
      JsObj.getOwn s1.errors item.name
        = some (validateSetting item.name { item.setting with value := v }) ∧
      ∀ k, k ≠ item.name → JsObj.getOwn s1.errors k = JsObj.getOwn s.errors k := by
  obtain ⟨s1, h1, _, _, _, _, he, _⟩ := updateSetting_spec i v s item hi
  refine ⟨s1, h1, ?_, ?_⟩
  · rw [he]
    exact getOwn_define_self _ _ _
  · intro k hk
    rw [he]
    exact getOwn_define_ne _ _ _ _ hk

/-- Witness of C17 on the loaded example: after 150 then 80 are written into
`welcome_brightness`, its entry holds no error and `device_ip` has no entry. -/
theorem updateSetting_error_entry_witness :
    ∃ s1, updateSetting 0 (.num 150) (loadData fetchSettingsExample State.initial) = .ok s1 ∧
      JsObj.getOwn s1.errors "welcome_brightness" = some (some (.maximumValueIs 100)) ∧
      JsObj.getOwn s1.errors "device_ip" = none :=
  (updateSetting_error_entry (loadData fetchSettingsExample State.initial) 0 (.num 150)
    { name := "welcome_brightness", setting := welcomeBrightness (.num 80) } rfl).elim
    fun s1 h => ⟨s1, h.1, h.2.1.trans (by decide), (h.2.2 "device_ip" (by decide)).trans rfl⟩

theorem handleSave_calls_congr (saveSettings : Data → SaveOutcome) (s t : State)
    (h : s.data.settings = t.data.settings) :
    (handleSave saveSettings s).2.length = (handleSave saveSettings t).2.length := by
  unfold handleSave handleSaveBegin
  rw [h]
  by_cases hk : (JsObj.keys (collectErrors t.data.settings)).length > 0
  · simp only [hk, if_true]
  · simp only [hk, if_false]
    cases saveSettings s.data <;> cases saveSettings t.data <;> rfl

/-- C18: for an index in range, `updateConstant(i, v)` puts `v` as the value of
constant `i` and keeps its name, every other constant, the settings, the `skill`
metadata and the error object; and the value of a constant plays no part in
validation: the errors that `handleSave` collects and whether it calls the
collaborator are the same before and after. -/
theorem updateConstant_frame (s : State) (i : Nat) (v : String) (c : Constant)
    (hi : s.data.constants.get? i = some c) :
    ∃ s1, updateConstant i v s = .ok s1 ∧
      s1.data.constants.get? i = some { name := c.name, value := v } ∧
      (∀ j, j ≠ i → s1.data.constants.get? j = s.data.constants.get? j) ∧
      s1.data.constants.length = s.data.constants.length ∧
      s1.data.settings = s.data.settings ∧
      s1.data.skill = s.data.skill ∧
      s1.errors = s.errors ∧
      collectErrors s1.data.settings = collectErrors s.data.settings ∧
      ∀ saveSettings : Data → SaveOutcome,
        (handleSave saveSettings s1).2.length = (handleSave saveSettings s).2.length := by
  refine ⟨_, updateConstant_eq i v s c hi, ?_, ?_, ?_, rfl, rfl, rfl, rfl, ?_⟩
  · exact get_set_self _ i c _ hi
  · intro j hj
    show (s.data.constants.set i { c with value := v }).get? j = _
    simp only [List.get?_eq_getElem?]
    exact List.getElem?_set_ne (Ne.symm hj)
  · exact List.length_set _ _ _
  · intro saveSettings
    exact handleSave_calls_congr saveSettings _ s rfl

/-- Witness of C18 on the loaded example: the value of `HUE_BRIDGE_IP` is replaced by
a string that is no address, and nothing is reported. -/
theorem updateConstant_frame_witness :
    ∃ s1, updateConstant 0 "not an address" (loadData fetchSettingsExample State.initial)
        = .ok s1 ∧
      s1.data.constants.get? 0 = some { name := "HUE_BRIDGE_IP", value := "not an address" } ∧
      s1.errors = [] ∧
      (handleSave (fun _ => SaveOutcome.resolved) s1).2.length = 1 :=
  (updateConstant_frame (loadData fetchSettingsExample State.initial) 0 "not an address"
    { name := "HUE_BRIDGE_IP", value := "192.168.1.42" } rfl).elim
    fun s1 h => ⟨s1, h.1, h.2.1, h.2.2.2.2.2.2.1,
      (h.2.2.2.2.2.2.2.2 (fun _ => SaveOutcome.resolved)).trans (by decide)⟩

/-- C19: `updateSetting`, `updateConstant`, `toggleGroup`, the toggle of
`showAdvanced`, `handleCancel`, a `handleSave` that stops on validation errors
and a `handleSave` whose promise is rejected all leave `originalData` as it was;
whatever `handleSave` does, `originalData` afterwards is either what it was or
the copy of `data` taken once the promise has resolved. -/
theorem originalData_unchanged (s : State) :
    (∀ i v s1, updateSetting i v s = .ok s1 → s1.originalData = s.originalData) ∧
      (∀ i v s1, updateConstant i v s = .ok s1 → s1.originalData = s.originalData) ∧
      (∀ group, (toggleGroup group s).originalData = s.originalData) ∧
      (toggleShowAdvanced s).originalData = s.originalData ∧
      (handleCancel s).originalData = s.originalData ∧
      (∀ saveSettings, (handleSaveBegin s).2 = none →
        (handleSave saveSettings s).1.originalData = s.originalData) ∧
      (∀ saveSettings, saveSettings s.data = .rejected →
        (handleSave saveSettings s).1.originalData = s.originalData) ∧
      (∀ saveSettings, (handleSave saveSettings s).1.originalData = s.originalData ∨
        ((handleSave saveSettings s).2 = [s.data] ∧ saveSettings s.data = .resolved ∧
          (handleSave saveSettings s).1.originalData = jsonParse (jsonStringify s.data))) := by
  refine ⟨fun i v s1 h => updateSetting_originalData i v s s1 h,
    fun i v s1 h => updateConstant_originalData i v s s1 h, fun _ => rfl, rfl, rfl, ?_, ?_, ?_⟩
  · intro saveSettings h
    rw [handleSave_stopped saveSettings s h]
  · intro saveSettings hrej
    rcases handleSave_cases saveSettings s with h | h | h
    · rw [h]
    · rw [h]
    · exfalso
      unfold handleSave handleSaveBegin at h
      by_cases hk : (JsObj.keys (collectErrors s.data.settings)).length > 0
      · simp only [hk, if_true, Prod.mk.injEq] at h
        exact absurd h.2 (by simp)
      · simp only [hk, if_false, hrej, Prod.mk.injEq] at h
        have := congrArg State.saving h.1
        simp [handleSaveResume] at this
  · intro saveSettings
    unfold handleSave handleSaveBegin
    by_cases hk : (JsObj.keys (collectErrors s.data.settings)).length > 0
    · left
      simp only [hk, if_true]
    · simp only [hk, if_false]
      cases hsave : saveSettings s.data
      · right
        exact ⟨rfl, rfl, rfl⟩
      · left
        rfl

/-- Witness of C19: the save of `protoStateTwo` stops on a validation error, the
save of the edited example is rejected, and an edit, a toggle and a cancel are
applied to the edited example; the baseline is the same after each. -/
theorem originalData_unchanged_witness :
    (handleSaveBegin protoStateTwo).2 = none ∧
      (handleSave (fun _ => SaveOutcome.resolved) protoStateTwo).1.originalData
        = protoStateTwo.originalData ∧
      (handleSave (fun _ => SaveOutcome.rejected) editedExample).1.originalData
        = editedExample.originalData ∧
      (toggleGroup "General" editedExample).originalData = editedExample.originalData ∧
      (handleCancel editedExample).originalData = editedExample.originalData :=
  ⟨by decide,
    (originalData_unchanged protoStateTwo).2.2.2.2.2.1 (fun _ => SaveOutcome.resolved)
      (by decide),
    (originalData_unchanged editedExample).2.2.2.2.2.2.1 (fun _ => SaveOutcome.rejected) rfl,
    (originalData_unchanged editedExample).2.2.1 "General",
    (originalData_unchanged editedExample).2.2.2.2.1⟩

/-- C20: the snapshot loses nothing. After `loadData` the baseline is the loaded
schema itself, and so it is after a `handleSave` that commits with no edit in
between: same settings in the same order, same values, lists in their order. -/
theorem baseline_round_trip (result : Data) (s0 : State) :
    (loadData result s0).originalData = result ∧
      ∀ saveSettings : Data → SaveOutcome,
        (∀ item ∈ result.settings, validateSetting item.name item.setting = none) →
        saveSettings result = .resolved →
        (handleSave saveSettings (loadData result s0)).2 = [result] ∧
          (handleSave saveSettings (loadData result s0)).1.originalData = result := by
  refine ⟨jsonParse_jsonStringify result, ?_⟩
  intro saveSettings hvalid hok
  have h := handleSave_valid_resolved saveSettings (loadData result s0) hvalid hok
  exact ⟨h.1, h.2.1.trans h.2.2.1⟩

/-- Witness of C20 on the example schema, whose `linked_devices` holds a list of
two strings. -/
theorem baseline_round_trip_witness :
    (loadData fetchSettingsExample State.initial).originalData = fetchSettingsExample ∧
      (handleSave (fun _ => SaveOutcome.resolved)
        (loadData fetchSettingsExample State.initial)).1.originalData = fetchSettingsExample :=
  ⟨(baseline_round_trip fetchSettingsExample State.initial).1,
    ((baseline_round_trip fetchSettingsExample State.initial).2
      (fun _ => SaveOutcome.resolved) (by decide) rfl).2⟩

/-! ## The group index -/

theorem getOwn_eq_none_iff {α : Type} (o : JsObj α) (k : String) :
    JsObj.getOwn o k = none ↔ k ∉ o.map Prod.fst := by
  induction o with
  | nil => simp [JsObj.getOwn]
  | cons x xs ih =>
    obtain ⟨k1, v1⟩ := x
    unfold JsObj.getOwn
    by_cases h : k1 = k
    · simp [h]
    · simp only [h, if_false, ih, List.map_cons, List.mem_cons, not_or]
      exact ⟨fun hk => ⟨fun e => h e.symm, hk⟩, fun hk => hk.2⟩

theorem define_map_fst {α : Type} (o : JsObj α) (k : String) (v : α) :
    (JsObj.define o k v).map Prod.fst
      = if k ∈ o.map Prod.fst then o.map Prod.fst else o.map Prod.fst ++ [k] := by
  induction o with
  | nil => simp [JsObj.define]
  | cons x xs ih =>
    obtain ⟨k1, v1⟩ := x
    unfold JsObj.define
    by_cases h : k1 = k
    · simp [h]
    · have h2 : ¬ k = k1 := fun e => h e.symm
      simp only [h, if_false, List.map_cons, ih, List.mem_cons, h2, false_or]
      split <;> simp

theorem members_define {α : Type} (o : JsObj (List α)) (k l : String) (v : List α) :
    JsObj.members (JsObj.define o k v) l = if l = k then v else JsObj.members o l := by
  unfold JsObj.members
  by_cases h : l = k
  · subst h
    simp [getOwn_define_self]
  · simp [h, getOwn_define_ne _ _ _ _ h]

theorem groupStep_ok (groups : JsObj (List GroupEntry)) (item : SettingItem) (index : Nat)
    (g1 : JsObj (List GroupEntry)) (h : groupStep groups item index = .ok g1) :
    g1 = JsObj.define groups (groupLabel item)
        (JsObj.members groups (groupLabel item)
          ++ [{ name := item.name, setting := item.setting, index := index }]) ∧
      (groupLabel item ∈ groups.map Prod.fst ∨ groupLabel item ∉ objectPrototypeKeys) := by
  unfold groupStep at h
  cases hget : JsObj.getOwn groups (groupLabel item) with
  | some entries =>
    simp only [hget] at h
    cases h
    refine ⟨by simp [JsObj.members, hget], Or.inl ?_⟩
    by_contra hk
    rw [(getOwn_eq_none_iff _ _).mpr hk] at hget
    cases hget
  | none =>
    simp only [hget] at h
    by_cases hp : groupLabel item ∈ objectPrototypeKeys
    · simp only [hp, if_true] at h
      cases h
    · simp only [hp, if_false] at h
      cases h
      exact ⟨by simp [JsObj.members, hget], Or.inr hp⟩

theorem groupStep_of_plain (groups : JsObj (List GroupEntry)) (item : SettingItem) (index : Nat)
    (hp : groupLabel item ∉ objectPrototypeKeys) :
    ∃ g1, groupStep groups item index = .ok g1 := by
  unfold groupStep
  cases JsObj.getOwn groups (groupLabel item) with
  | some entries => exact ⟨_, rfl⟩
  | none =>
    simp only [hp, if_false]
    exact ⟨_, rfl⟩

theorem groupLoop_of_plain (rest : List SettingItem) (index : Nat)
    (groups : JsObj (List GroupEntry))
    (hp : ∀ item ∈ rest, groupLabel item ∉ objectPrototypeKeys) :
    ∃ out, groupLoop rest index groups = .ok out := by
  induction rest generalizing index groups with
  | nil => exact ⟨groups, rfl⟩
  | cons item rest ih =>
    obtain ⟨g1, h1⟩ := groupStep_of_plain groups item index (hp item (List.mem_cons_self _ _))
    obtain ⟨out, h2⟩ := ih (index + 1) g1 fun x hx => hp x (List.mem_cons_of_mem _ hx)
    exact ⟨out, by simp only [groupLoop, h1, h2]⟩

theorem groupLoop_cons_ok (item : SettingItem) (rest : List SettingItem) (index : Nat)
    (groups out : JsObj (List GroupEntry))
    (h : groupLoop (item :: rest) index groups = .ok out) :
    ∃ g1, groupStep groups item index = .ok g1 ∧ groupLoop rest (index + 1) g1 = .ok out := by
  simp only [groupLoop] at h
  cases h1 : groupStep groups item index with
  | ok g1 =>
    rw [h1] at h
    exact ⟨g1, rfl, h⟩
  | error e =>
    rw [h1] at h
    cases h

theorem entriesOf_cons (l : String) (item : SettingItem) (rest : List SettingItem)
    (index : Nat) :
    entriesOf l (item :: rest) index =
      if groupLabel item = l then
        { name := item.name, setting := item.setting, index := index }
          :: entriesOf l rest (index + 1)
      else entriesOf l rest (index + 1) := rfl

theorem groupLoop_members (rest : List SettingItem) (index : Nat)
    (groups out : JsObj (List GroupEntry)) (h : groupLoop rest index groups = .ok out)
    (l : String) :
    JsObj.members out l = JsObj.members groups l ++ entriesOf l rest index := by
  induction rest generalizing index groups with
  | nil =>
    simp only [groupLoop] at h
    cases h
    simp [entriesOf]
  | cons item rest ih =>
    obtain ⟨g1, h1, h2⟩ := groupLoop_cons_ok item rest index groups out h
    rw [ih (index + 1) g1 h2, (groupStep_ok groups item index g1 h1).1, members_define,
      entriesOf_cons]
    by_cases hl : groupLabel item = l
    · subst hl
      simp
    · have hl2 : ¬ l = groupLabel item := fun e => hl e.symm
      simp [hl, hl2]

theorem groupLoop_keys (rest : List SettingItem) (index : Nat)
    (groups out : JsObj (List GroupEntry)) (h : groupLoop rest index groups = .ok out) :
    out.map Prod.fst = groups.map Prod.fst ++
      (firstSeen (rest.map groupLabel)).filter fun k => decide (k ∉ groups.map Prod.fst) := by
  induction rest generalizing index groups with
  | nil =>
    simp only [groupLoop] at h
    cases h
    simp [firstSeen]
  | cons item rest ih =>
    obtain ⟨g1, h1, h2⟩ := groupLoop_cons_ok item rest index groups out h
    rw [ih (index + 1) g1 h2, (groupStep_ok groups item index g1 h1).1, define_map_fst]
    simp only [List.map_cons, firstSeen, List.filter_cons, List.filter_filter]
    by_cases hk : groupLabel item ∈ groups.map Prod.fst
    · simp only [hk, if_true, not_true_eq_false, decide_False, Bool.false_eq_true, if_false]
      congr 1
      apply List.filter_congr
      intro k _
      by_cases hk2 : k ∈ groups.map Prod.fst
      · simp [hk2]
      · have : k ≠ groupLabel item := fun e => hk2 (e ▸ hk)
        simp [hk2, this]
    · simp only [hk, if_false, not_false_eq_true, decide_True, if_true, List.append_assoc,
        List.singleton_append]
      congr 2
      apply List.filter_congr
      intro k _
      simp only [List.mem_append, List.mem_singleton, not_or, Bool.decide_and, decide_not,
        Bool.and_comm]

theorem groupLoop_labels_plain (rest : List SettingItem) (index : Nat)
    (groups out : JsObj (List GroupEntry)) (h : groupLoop rest index groups = .ok out)
    (hg : ∀ k ∈ groups.map Prod.fst, k ∉ objectPrototypeKeys) :
    ∀ item ∈ rest, groupLabel item ∉ objectPrototypeKeys := by
  induction rest generalizing index groups with
  | nil => intro item hitem; cases hitem
  | cons x rest ih =>
    obtain ⟨g1, h1, h2⟩ := groupLoop_cons_ok x rest index groups out h
    obtain ⟨hg1, hx⟩ := groupStep_ok groups x index g1 h1
    have hxp : groupLabel x ∉ objectPrototypeKeys := by
      rcases hx with hx | hx
      · exact hg _ hx
      · exact hx
    have hg1k : ∀ k ∈ g1.map Prod.fst, k ∉ objectPrototypeKeys := by
      intro k hk
      rw [hg1, define_map_fst] at hk
      split at hk
      · exact hg k hk
      · rcases List.mem_append.mp hk with hk | hk
        · exact hg k hk
        · rw [List.mem_singleton.mp hk]
          exact hxp
    intro item hitem
    rcases List.mem_cons.mp hitem with rfl | hitem
    · exact hxp
    · exact ih (index + 1) g1 h2 hg1k item hitem

theorem mem_entriesOf (l : String) (rest : List SettingItem) (index : Nat) (e : GroupEntry) :
    e ∈ entriesOf l rest index ↔
      ∃ j item, rest.get? j = some item ∧ groupLabel item = l ∧
        e = { name := item.name, setting := item.setting, index := index + j } := by
  induction rest generalizing index with
  | nil => simp [entriesOf]
  | cons x rest ih =>
    rw [entriesOf_cons]
    constructor
    · intro h
      by_cases hx : groupLabel x = l
      · rw [if_pos hx] at h
        rcases List.mem_cons.mp h with rfl | h
        · exact ⟨0, x, rfl, hx, rfl⟩
        · obtain ⟨j, item, hj, hl, rfl⟩ := (ih (index + 1)).mp h
          exact ⟨j + 1, item, hj, hl, by simp only [GroupEntry.mk.injEq, true_and]; omega⟩
      · rw [if_neg hx] at h
        obtain ⟨j, item, hj, hl, rfl⟩ := (ih (index + 1)).mp h
        exact ⟨j + 1, item, hj, hl, by simp only [GroupEntry.mk.injEq, true_and]; omega⟩
    · rintro ⟨j, item, hj, hl, rfl⟩
      cases j with
      | zero =>
        simp only [List.get?_cons_zero, Option.some.injEq] at hj
        subst hj
        rw [if_pos hl]
        exact List.mem_cons_self _ _
      | succ j =>
        simp only [List.get?_cons_succ] at hj
        have hmem : ({ name := item.name, setting := item.setting, index := index + (j + 1) }
            : GroupEntry) ∈ entriesOf l rest (index + 1) :=
          (ih (index + 1)).mpr ⟨j, item, hj, hl,
            by simp only [GroupEntry.mk.injEq, true_and]; omega⟩
        split
        · exact List.mem_cons_of_mem _ hmem
        · exact hmem

theorem entriesOf_index_ge (l : String) (rest : List SettingItem) (index : Nat) :
    ∀ e ∈ entriesOf l rest index, index ≤ e.index := by
  intro e he
  obtain ⟨j, item, _, _, rfl⟩ := (mem_entriesOf l rest index e).mp he
  exact Nat.le_add_right _ _

theorem entriesOf_increasing (l : String) (rest : List SettingItem) (index : Nat) :
    (entriesOf l rest index).Pairwise fun a b => a.index < b.index := by
  induction rest generalizing index with
  | nil => simp [entriesOf]
  | cons x rest ih =>
    rw [entriesOf_cons]
    split
    · refine List.pairwise_cons.mpr ⟨?_, ih (index + 1)⟩
      intro e he
      exact entriesOf_index_ge l rest (index + 1) e he
    · exact ih (index + 1)

theorem mem_insertIndex (n : Nat) (k : String) (acc : List (Nat × String)) (x : Nat × String) :
    x ∈ JsObj.insertIndex n k acc ↔ x = (n, k) ∨ x ∈ acc := by
  induction acc with
  | nil => simp [JsObj.insertIndex]
  | cons y ys ih =>
    obtain ⟨m, l⟩ := y
    unfold JsObj.insertIndex
    split
    · simp
    · simp only [List.mem_cons, ih]
      tauto

theorem mem_indexKeys (ks : List String) (acc : List (Nat × String)) (x : Nat × String)
    (h : x ∈ ks.foldl (fun acc k => match JsObj.arrayIndex k with
        | some n => JsObj.insertIndex n k acc
        | none => acc) acc) :
    x ∈ acc ∨ x.2 ∈ ks := by
  induction ks generalizing acc with
  | nil => exact Or.inl h
  | cons k ks ih =>
    rw [List.foldl_cons] at h
    rcases ih _ h with h1 | h1
    · cases hk : JsObj.arrayIndex k with
      | none =>
        rw [hk] at h1
        exact Or.inl h1
      | some n =>
        rw [hk] at h1
        rcases (mem_insertIndex n k acc x).mp h1 with rfl | h2
        · exact Or.inr (List.mem_cons_self _ _)
        · exact Or.inl h2
    · exact Or.inr (List.mem_cons_of_mem _ h1)

theorem mem_of_mem_keys {α : Type} (o : JsObj α) (k : String) (h : k ∈ JsObj.keys o) :
    k ∈ o.map Prod.fst := by
  unfold JsObj.keys at h
  rcases List.mem_append.mp h with h | h
  · obtain ⟨x, hx, rfl⟩ := List.mem_map.mp h
    rcases mem_indexKeys _ [] x hx with h1 | h1
    · cases h1
    · exact h1
  · exact (List.mem_filter.mp h).1

theorem indexKeys_of_no_index (ks : List String) (acc : List (Nat × String))
    (h : ∀ k ∈ ks, JsObj.arrayIndex k = none) :
    ks.foldl (fun acc k => match JsObj.arrayIndex k with
        | some n => JsObj.insertIndex n k acc
        | none => acc) acc = acc := by
  induction ks generalizing acc with
  | nil => rfl
  | cons k ks ih =>
    rw [List.foldl_cons, h k (List.mem_cons_self _ _)]
    exact ih acc fun x hx => h x (List.mem_cons_of_mem _ hx)

theorem keys_of_no_index {α : Type} (o : JsObj α)
    (h : ∀ k ∈ o.map Prod.fst, JsObj.arrayIndex k = none) :
    JsObj.keys o = o.map Prod.fst := by
  unfold JsObj.keys
  simp only [indexKeys_of_no_index _ [] h, List.map_nil, List.nil_append]
  apply List.filter_eq_self.mpr
  intro k hk
  simp [h k hk]

theorem mem_firstSeen (l : List String) (k : String) : k ∈ firstSeen l ↔ k ∈ l := by
  induction l with
  | nil => simp [firstSeen]
  | cons x xs ih =>
    simp only [firstSeen, List.mem_cons, List.mem_filter, ih, decide_eq_true_eq]
    by_cases h : k = x
    · simp [h]
    · simp [h]

theorem indexOf_filter_lt (p : String → Bool) (l : List String) (a b : String)
    (ha : a ∈ l) (hb : b ∈ l) (hpa : p a = true) (hpb : p b = true) :
    (l.filter p).indexOf a < (l.filter p).indexOf b ↔ l.indexOf a < l.indexOf b := by
  induction l with
  | nil => cases ha
  | cons x t ih =>
    by_cases hxa : x = a
    · subst hxa
      rw [List.filter_cons_of_pos hpa, List.indexOf_cons_self, List.indexOf_cons_self]
      by_cases hxb : x = b
      · subst hxb
        simp
      · rw [List.indexOf_cons_ne _ hxb, List.indexOf_cons_ne _ hxb]
        simp
    · by_cases hxb : x = b
      · subst hxb
        rw [List.filter_cons_of_pos hpb, List.indexOf_cons_self, List.indexOf_cons_self]
        simp
      · have hat : a ∈ t := by
          rcases List.mem_cons.mp ha with h | h
          · exact absurd h.symm hxa
          · exact h
        have hbt : b ∈ t := by
          rcases List.mem_cons.mp hb with h | h
          · exact absurd h.symm hxb
          · exact h
        rw [List.indexOf_cons_ne _ hxa, List.indexOf_cons_ne _ hxb]
        by_cases hpx : p x = true
        · rw [List.filter_cons_of_pos hpx, List.indexOf_cons_ne _ hxa,
            List.indexOf_cons_ne _ hxb]
          simp only [Nat.succ_lt_succ_iff]
          exact ih hat hbt
        · rw [List.filter_cons_of_neg hpx]
          simp only [Nat.succ_lt_succ_iff]
          exact ih hat hbt

theorem firstSeen_indexOf_lt (l : List String) (a b : String) (ha : a ∈ l) (hb : b ∈ l) :
    (firstSeen l).indexOf a < (firstSeen l).indexOf b ↔ l.indexOf a < l.indexOf b := by
  induction l with
  | nil => cases ha
  | cons x t ih =>
    simp only [firstSeen]
    by_cases hxa : x = a
    · subst hxa
      rw [List.indexOf_cons_self, List.indexOf_cons_self]
      by_cases hxb : x = b
      · subst hxb
        simp
      · rw [List.indexOf_cons_ne _ hxb, List.indexOf_cons_ne _ hxb]
        simp
    · by_cases hxb : x = b
      · subst hxb
        rw [List.indexOf_cons_self, List.indexOf_cons_self]
        simp
      · have hat : a ∈ t := by
          rcases List.mem_cons.mp ha with h | h
          · exact absurd h.symm hxa
          · exact h
        have hbt : b ∈ t := by
          rcases List.mem_cons.mp hb with h | h
          · exact absurd h.symm hxb
          · exact h
        rw [List.indexOf_cons_ne _ hxa, List.indexOf_cons_ne _ hxb,
          List.indexOf_cons_ne _ hxa, List.indexOf_cons_ne _ hxb]
        simp only [Nat.succ_lt_succ_iff]
        rw [indexOf_filter_lt _ _ a b ((mem_firstSeen t a).mpr hat) ((mem_firstSeen t b).mpr hbt)
          (by simpa using Ne.symm hxa) (by simpa using Ne.symm hxb)]
        exact ih hat hbt

theorem groupedSettings_members (s : State) (groups : JsObj (List GroupEntry))
    (h : groupedSettings s = .ok groups) (l : String) :
    JsObj.members groups l = entriesOf l s.data.settings 0 := by
  have := groupLoop_members s.data.settings 0 [] groups h l
  simpa [JsObj.members, JsObj.getOwn] using this

theorem groupedSettings_keys (s : State) (groups : JsObj (List GroupEntry))
    (h : groupedSettings s = .ok groups) :
    groups.map Prod.fst = firstSeen (s.data.settings.map groupLabel) := by
  have := groupLoop_keys s.data.settings 0 [] groups h
  simpa using this

theorem groupedSettings_labels_plain (s : State) (groups : JsObj (List GroupEntry))
    (h : groupedSettings s = .ok groups) :
    ∀ item ∈ s.data.settings, groupLabel item ∉ objectPrototypeKeys :=
  groupLoop_labels_plain s.data.settings 0 [] groups h (fun k hk => by cases hk)

theorem groupedSettings_of_plain (s : State)
    (hp : ∀ item ∈ s.data.settings, groupLabel item ∉ objectPrototypeKeys) :
    ∃ groups, groupedSettings s = .ok groups :=
  groupLoop_of_plain s.data.settings 0 [] hp

theorem general_not_inherited : "General" ∉ objectPrototypeKeys := by decide

theorem groupLabel_cases (item : SettingItem) :
    (∃ g, item.setting.group = some g ∧ g ≠ "" ∧ groupLabel item = g) ∨
      ((item.setting.group = none ∨ item.setting.group = some "") ∧
        groupLabel item = "General") := by
  unfold groupLabel
  cases hg : item.setting.group with
  | none => exact Or.inr ⟨Or.inl rfl, rfl⟩
  | some g =>
    by_cases he : g = ""
    · subst he
      exact Or.inr ⟨Or.inr rfl, by simp⟩
    · exact Or.inl ⟨g, rfl, he, by simp [he]⟩

theorem mem_members_iff (s : State) (groups : JsObj (List GroupEntry))
    (h : groupedSettings s = .ok groups) (l : String) (i : Nat) (item : SettingItem)
    (hi : s.data.settings.get? i = some item) :
    ({ name := item.name, setting := item.setting, index := i } : GroupEntry)
        ∈ JsObj.members groups l ↔ groupLabel item = l := by
  rw [groupedSettings_members s groups h l, mem_entriesOf]
  constructor
  · rintro ⟨j, x, hj, hl, he⟩
    simp only [GroupEntry.mk.injEq, Nat.zero_add] at he
    rw [← he.2.2, hi] at hj
    cases hj
    exact hl
  · intro hl
    exact ⟨i, item, hi, hl, by simp⟩

/-- When `groupedSettings` returns, its index is a partition of the schema positions:
each entry sits at the position its `index` names, the indices of a group are
strictly increasing, and the entry of a position occurs once in the group of its
label and in no other group. -/
theorem groupedSettings_partition (s : State) (groups : JsObj (List GroupEntry))
    (h : groupedSettings s = .ok groups) :
    (∀ l, ∀ e ∈ JsObj.members groups l,
        s.data.settings.get? e.index = some { name := e.name, setting := e.setting }) ∧
      (∀ l, (JsObj.members groups l).Pairwise fun a b => a.index < b.index) ∧
      (∀ i item, s.data.settings.get? i = some item →
        (JsObj.members groups (groupLabel item)).count
            { name := item.name, setting := item.setting, index := i } = 1 ∧
          ∀ l, l ≠ groupLabel item → ∀ e ∈ JsObj.members groups l, e.index ≠ i) := by
  refine ⟨?_, ?_, ?_⟩
  · intro l e he
    rw [groupedSettings_members s groups h l, mem_entriesOf] at he
    obtain ⟨j, item, hj, _, rfl⟩ := he
    simpa using hj
  · intro l
    rw [groupedSettings_members s groups h l]
    exact entriesOf_increasing l _ 0
  · intro i item hi
    constructor
    · apply List.count_eq_one_of_mem
      · have hp := entriesOf_increasing (groupLabel item) s.data.settings 0
        rw [groupedSettings_members s groups h]
        exact hp.imp fun hab e => by rw [e] at hab; exact Nat.lt_irrefl _ hab
      · exact (mem_members_iff s groups h _ i item hi).mpr rfl
    · intro l hl e he hei
      rw [groupedSettings_members s groups h l, mem_entriesOf] at he
      obtain ⟨j, x, hj, hx, rfl⟩ := he
      simp only [Nat.zero_add] at hei
      rw [hei, hi] at hj
      cases hj
      exact hl hx.symm

theorem entries_keys {α : Type} (o : JsObj α) :
    (JsObj.entries o).map Prod.fst = JsObj.keys o := by
  unfold JsObj.entries
  have hall : ∀ k ∈ JsObj.keys o, ∃ v, JsObj.getOwn o k = some v := by
    intro k hk
    cases hget : JsObj.getOwn o k with
    | some v => exact ⟨v, rfl⟩
    | none => exact absurd (mem_of_mem_keys o k hk) ((getOwn_eq_none_iff o k).mp hget)
  generalize JsObj.keys o = ks at hall
  induction ks with
  | nil => rfl
  | cons k ks ih =>
    obtain ⟨v, hv⟩ := hall k (List.mem_cons_self _ _)
    rw [List.filterMap_cons, hv]
    simp only [Option.map_some', List.map_cons, List.cons.injEq, true_and]
    exact ih fun x hx => hall x (List.mem_cons_of_mem _ hx)

/-! ## Claims on loading, grouping and rendering -/

/-- C21, counterexample: with an error recorded for `welcome_brightness`,
`loadData` leaves that error in the error object. -/
theorem loadData_keeps_errors :
    (applyEdits loadedExample [.setting 0 (.num 150)]).errors
        = [("welcome_brightness", some (.maximumValueIs 100))] ∧
      (loadData fetchSettingsExample (applyEdits loadedExample [.setting 0 (.num 150)])).errors
        = [("welcome_brightness", some (.maximumValueIs 100))] := by
  decide

/-- C21, amended: `loadData` installs the loaded schema as the working copy and
as the baseline and leaves the error object as it is; applied to the initial
state, which is where the component calls it, it ends with the empty error
object. -/
theorem loadData_installs (result : Data) (s : State) :
    (loadData result s).data = result ∧
      (loadData result s).originalData = result ∧
      (loadData result s).errors = s.errors ∧
      (loadData result State.initial).errors = [] :=
  ⟨rfl, jsonParse_jsonStringify result, rfl, rfl⟩

/-- C22, counterexample: a setting whose `group` is the empty string, which is a
string, is placed under `General` and not under the empty label. -/
theorem groupedSettings_empty_label :
    (groupedSettings (sessionOf [labelled "a" (some "")])).toOption.map
        (fun groups => (JsObj.members groups "", (JsObj.members groups "General").map
          fun e => (e.name, e.index)))
      = some ([], [("a", 0)]) := by
  decide

/-- C22, amended: when no label is a name inherited from `Object.prototype`,
`groupedSettings` returns an index in which each setting is under its `group`
attribute when that is a non-empty string and under `General` when it is absent,
`null` or the empty string, and under no other label. -/
theorem groupedSettings_labels (s : State)
    (hp : ∀ item ∈ s.data.settings, groupLabel item ∉ objectPrototypeKeys) :
    ∃ groups, groupedSettings s = .ok groups ∧
      ∀ i item, s.data.settings.get? i = some item →
        (∀ g, item.setting.group = some g → g ≠ "" →
          ({ name := item.name, setting := item.setting, index := i } : GroupEntry)
            ∈ JsObj.members groups g) ∧
        (item.setting.group = none ∨ item.setting.group = some "" →
          ({ name := item.name, setting := item.setting, index := i } : GroupEntry)
            ∈ JsObj.members groups "General") ∧
        (∀ l, ({ name := item.name, setting := item.setting, index := i } : GroupEntry)
            ∈ JsObj.members groups l →
          (item.setting.group = some l ∧ l ≠ "") ∨
            (l = "General" ∧ (item.setting.group = none ∨ item.setting.group = some ""))) := by
  obtain ⟨groups, h⟩ := groupedSettings_of_plain s hp
  refine ⟨groups, h, ?_⟩
  intro i item hi
  refine ⟨?_, ?_, ?_⟩
  · intro g hg hne
    rw [mem_members_iff s groups h g i item hi]
    simp [groupLabel, hg, hne]
  · intro hg
    rw [mem_members_iff s groups h "General" i item hi]
    rcases hg with hg | hg <;> simp [groupLabel, hg]
  · intro l hl
    rw [mem_members_iff s groups h l i item hi] at hl
    rcases groupLabel_cases item with ⟨g, hg, hne, hlab⟩ | ⟨hg, hlab⟩
    · left
      rw [← hl, hlab]
      exact ⟨hg, hne⟩
    · right
      exact ⟨by rw [← hl, hlab], hg⟩

/-- Witness of C22 on the example schema: `light_id` and `motion_timeout` are under
`Hallway Settings`, `welcome_brightness` and `enable_logging` under `General`. -/
theorem groupedSettings_labels_witness :
    ∃ groups, groupedSettings loadedExample = .ok groups ∧
      (JsObj.members groups "Hallway Settings").map (fun e => e.name)
        = ["light_id", "motion_timeout"] ∧
      (∃ e ∈ JsObj.members groups "Hallway Settings", e.name = "motion_timeout" ∧ e.index = 7) ∧
      (∃ e ∈ JsObj.members groups "General", e.name = "welcome_brightness" ∧ e.index = 0) :=
  (groupedSettings_labels loadedExample (by decide)).elim fun groups h =>
    ⟨groups, h.1,
      by
        have hg : groupedSettings loadedExample = .ok groups := h.1
        rw [groupedSettings_members loadedExample groups hg]
        decide,
      ⟨_, (h.2 7 _ rfl).1 "Hallway Settings" rfl (by decide), rfl, rfl⟩,
      ⟨_, (h.2 0 _ rfl).2.1 (Or.inl rfl), rfl, rfl⟩⟩

/-- C23, counterexample: in the loaded example `showAdvanced` is false and
`api_token` is advanced, yet `groupedSettings` lists it in the group
`General`, at its position 2. -/
theorem groupedSettings_keeps_advanced :
    loadedExample.showAdvanced = false ∧
      (apiToken (.str "")).advanced = some true ∧
      (groupedSettings loadedExample).toOption.map
          (fun groups => decide
            ((⟨"api_token", apiToken (.str ""), 2⟩ : GroupEntry) ∈ JsObj.members groups "General"))
        = some true := by
  decide

/-- C23, amended: `groupedSettings` reads neither `advanced` nor `showAdvanced`: its
result is the same for both values of the flag, and when it returns, an advanced
setting is a member of the sequence of its own group. What hides the setting is
`renderSetting`, which returns `null` for it exactly when `showAdvanced` is
false. -/
theorem advanced_hidden_by_renderSetting (s : State) :
    (∀ b : Bool, groupedSettings { s with showAdvanced := b } = groupedSettings s) ∧
      (∀ groups i item, groupedSettings s = .ok groups →
        s.data.settings.get? i = some item → item.setting.advanced = some true →
        ({ name := item.name, setting := item.setting, index := i } : GroupEntry)
          ∈ JsObj.members groups (groupLabel item)) ∧
      (∀ item : SettingItem, item.setting.advanced = some true →
        (renderSetting s item = none ↔ s.showAdvanced = false)) := by
  refine ⟨fun _ => rfl, ?_, ?_⟩
  · intro groups i item h hi _
    exact (mem_members_iff s groups h _ i item hi).mpr rfl
  · intro item hadv
    unfold renderSetting
    by_cases hs : s.showAdvanced = false
    · simp [hadv, hs]
    · simp [hadv, hs]

/-- Witness of C23 amended on the example: `api_token` is in the index, is not
rendered while `showAdvanced` is false and is rendered once the flag is
toggled. -/
theorem advanced_hidden_by_renderSetting_witness :
    groupedSettings (toggleShowAdvanced loadedExample) = groupedSettings loadedExample ∧
      renderSetting loadedExample { name := "api_token", setting := apiToken (.str "") }
        = none ∧
      renderSetting (toggleShowAdvanced loadedExample)
        { name := "api_token", setting := apiToken (.str "") } ≠ none :=
  ⟨(advanced_hidden_by_renderSetting loadedExample).1 true,
    ((advanced_hidden_by_renderSetting loadedExample).2.2
      { name := "api_token", setting := apiToken (.str "") } rfl).mpr rfl,
    fun h => absurd
      (((advanced_hidden_by_renderSetting (toggleShowAdvanced loadedExample)).2.2
        { name := "api_token", setting := apiToken (.str "") } rfl).mp h) (by decide)⟩

/-- C24, counterexample: the label `2` is seen first and the label `1` second, and
`Object.entries` enumerates the group `1` before the group `2`. -/
theorem groupedSettings_numeric_labels :
    (sessionOf [labelled "a" (some "2"), labelled "b" (some "1")]).data.settings.map groupLabel
        = ["2", "1"] ∧
      (groupedSettings (sessionOf [labelled "a" (some "2"), labelled "b" (some "1")])).toOption.map
          (fun groups => (JsObj.entries groups).map
            fun p => (p.1, p.2.map fun e => e.name))
        = some [("1", ["b"]), ("2", ["a"])] := by
  decide

/-- C24, amended: when no label is an array index (a canonical decimal numeral
below 2^32 - 1) and none is a name inherited from `Object.prototype`, the groups
are enumerated in the order in which their labels are first seen: label `a`
comes before label `b` exactly when the first setting that carries `a` precedes
the first setting that carries `b`. -/
theorem groupedSettings_first_seen_order (s : State)
    (hp : ∀ item ∈ s.data.settings, groupLabel item ∉ objectPrototypeKeys)
    (hidx : ∀ item ∈ s.data.settings, JsObj.arrayIndex (groupLabel item) = none) :
    ∃ groups, groupedSettings s = .ok groups ∧
      (JsObj.entries groups).map Prod.fst = firstSeen (s.data.settings.map groupLabel) ∧
      ∀ a b, a ∈ s.data.settings.map groupLabel → b ∈ s.data.settings.map groupLabel →
        (((JsObj.entries groups).map Prod.fst).indexOf a
            < ((JsObj.entries groups).map Prod.fst).indexOf b ↔
          (s.data.settings.map groupLabel).indexOf a
            < (s.data.settings.map groupLabel).indexOf b) := by
  obtain ⟨groups, h⟩ := groupedSettings_of_plain s hp
  have hk := groupedSettings_keys s groups h
  have hkeys : (JsObj.entries groups).map Prod.fst
      = firstSeen (s.data.settings.map groupLabel) := by
    rw [entries_keys, keys_of_no_index, hk]
    intro k hk2
    rw [hk, mem_firstSeen] at hk2
    obtain ⟨item, hitem, rfl⟩ := List.mem_map.mp hk2
    exact hidx item hitem
  refine ⟨groups, h, hkeys, ?_⟩
  intro a b ha hb
  rw [hkeys]
  exact firstSeen_indexOf_lt _ a b ha hb

/-- Witness of C24 amended on the example schema: `General` is seen first and
comes before `Hallway Settings`. -/
theorem groupedSettings_first_seen_order_witness :
    ∃ groups, groupedSettings loadedExample = .ok groups ∧
      (JsObj.entries groups).map Prod.fst = ["General", "Hallway Settings"] :=
  (groupedSettings_first_seen_order loadedExample (by decide) (by decide)).elim
    fun groups h => ⟨groups, h.1, h.2.1.trans (by decide)⟩

/-- C25, the failing input: with the example schema followed by a setting whose
group label is `constructor`, `groupedSettings` throws a `TypeError` and returns
no index at all; the same happens for a single such setting. -/
theorem groupedSettings_throws_on_inherited_label :
    (groupedSettings (sessionOf
        (fetchSettingsExample.settings ++ [labelled "extra" (some "constructor")]))).toOption
        = none ∧
      (groupedSettings (sessionOf [labelled "extra" (some "constructor")])).toOption = none ∧
      (groupedSettings (sessionOf [labelled "extra" (some "toString")])).toOption = none := by
  decide

/-- C26: no group of an index that `groupedSettings` returns is collapsed in the
initial state; `toggleGroup(g)` negates the collapsed status of `g`, keeps the
status of every other label, and applied twice gives the status back; and
`groupedSettings` returns the same index whatever the collapsed set is. -/
theorem toggleGroup_flips (s : State) :
    (∀ groups, groupedSettings s = .ok groups → ∀ g ∈ JsObj.keys groups,
        JsObj.readTruthy State.initial.collapsedGroups g = false) ∧
      (∀ g, JsObj.readTruthy (toggleGroup g s).collapsedGroups g
        = !JsObj.readTruthy s.collapsedGroups g) ∧
      (∀ g k, k ≠ g → JsObj.readTruthy (toggleGroup g s).collapsedGroups k
        = JsObj.readTruthy s.collapsedGroups k) ∧
      (∀ g, JsObj.readTruthy (toggleGroup g (toggleGroup g s)).collapsedGroups g
        = JsObj.readTruthy s.collapsedGroups g) ∧
      (∀ g, groupedSettings (toggleGroup g s) = groupedSettings s) ∧
      (∀ collapsed : JsObj Bool,
        groupedSettings { s with collapsedGroups := collapsed } = groupedSettings s) := by
  have hflip : ∀ (t : State) g, JsObj.readTruthy (toggleGroup g t).collapsedGroups g
      = !JsObj.readTruthy t.collapsedGroups g := by
    intro t g
    show JsObj.readTruthy (JsObj.define _ g _) g = _
    unfold JsObj.readTruthy
    rw [getOwn_define_self]
  refine ⟨?_, hflip s, ?_, ?_, fun _ => rfl, fun _ => rfl⟩
  · intro groups h g hg
    have hmem := mem_of_mem_keys groups g hg
    rw [groupedSettings_keys s groups h, mem_firstSeen] at hmem
    obtain ⟨item, hitem, rfl⟩ := List.mem_map.mp hmem
    have hplain := groupedSettings_labels_plain s groups h item hitem
    simp [JsObj.readTruthy, State.initial, JsObj.getOwn, hplain]
  · intro g k hk
    show JsObj.readTruthy (JsObj.define _ g _) k = _
    unfold JsObj.readTruthy
    rw [getOwn_define_ne _ _ _ _ hk]
  · intro g
    rw [hflip, hflip, Bool.not_not]

/-- Witness of C26 on the example: both groups start expanded, and collapsing
`General` leaves `Hallway Settings` expanded and the index as it was. -/
theorem toggleGroup_flips_witness :
    JsObj.readTruthy loadedExample.collapsedGroups "General" = false ∧
      JsObj.readTruthy (toggleGroup "General" loadedExample).collapsedGroups "General" = true ∧
      JsObj.readTruthy (toggleGroup "General" loadedExample).collapsedGroups "Hallway Settings"
        = false ∧
      groupedSettings (toggleGroup "General" loadedExample) = groupedSettings loadedExample :=
  ⟨by decide,
    ((toggleGroup_flips loadedExample).2.1 "General").trans (by decide),
    ((toggleGroup_flips loadedExample).2.2.1 "General" "Hallway Settings"
      (by decide)).trans (by decide),
    (toggleGroup_flips loadedExample).2.2.2.2.1 "General"⟩

/-- C27: with an index out of the range of the settings, `updateSetting` throws a
`TypeError` and sets no state: the working copy, the baseline and the error
object are what they were; `updateConstant` does the same with an index out of
the range of the constants. -/
theorem update_out_of_range (s : State) (i : Nat) :
    (s.data.settings.length ≤ i → ∀ v, updateSetting i v s = .error .typeError ∧
        applyEdit s (.setting i v) = s) ∧
      (s.data.constants.length ≤ i → ∀ v, updateConstant i v s = .error .typeError ∧
        applyEdit s (.constant i v) = s) := by
  constructor
  · intro hi v
    have h : updateSetting i v s = .error .typeError := by
      unfold updateSetting
      rw [List.get?_eq_none.mpr hi]
    exact ⟨h, by simp only [applyEdit, h]⟩
  · intro hi v
    have h : updateConstant i v s = .error .typeError := by
      unfold updateConstant
      rw [List.get?_eq_none.mpr hi]
    exact ⟨h, by simp only [applyEdit, h]⟩

/-- Witness of C27 on the example, which has ten settings and three constants. -/
theorem update_out_of_range_witness :
    loadedExample.data.settings.length = 10 ∧
      updateSetting 10 (.num 1) loadedExample = .error .typeError ∧
      applyEdit loadedExample (.setting 10 (.num 1)) = loadedExample ∧
      updateConstant 10 "x" loadedExample = .error .typeError :=
  ⟨by decide,
    ((update_out_of_range loadedExample 10).1 (by decide) (.num 1)).1,
    ((update_out_of_range loadedExample 10).1 (by decide) (.num 1)).2,
    ((update_out_of_range loadedExample 10).2 (by decide) "x").1⟩

/-- C28, counterexample: two `enum` settings with the same `ui`, one with its
`enum_` list and one with `enum_` null, get a dropdown and a text input. -/
theorem renderInput_depends_on_enum :
    (modeSetting (.str "eco")).vtype = ({ modeSetting (.str "eco") with enum_ := none }).vtype ∧
      (modeSetting (.str "eco")).ui = ({ modeSetting (.str "eco") with enum_ := none }).ui ∧
      renderInput { name := "mode", setting := modeSetting (.str "eco") } = .dropdown ∧
      renderInput { name := "mode", setting := { modeSetting (.str "eco") with enum_ := none } }
        = .textInput := by
  decide

/-- C28, amended: the kind of control is determined by `vtype`, `ui` and whether
`enum_` is present: two settings that agree on these three get the same kind,
whatever their value, min, max and the content of `enum_` are. -/
theorem renderInput_determined (a b : SettingItem)
    (hvtype : a.setting.vtype = b.setting.vtype) (hui : a.setting.ui = b.setting.ui)
    (henum : a.setting.enum_.isSome = b.setting.enum_.isSome) :
    renderInput a = renderInput b := by
  unfold renderInput
  rw [hvtype, hui, henum]

/-- Witness of C28 amended: `poll_interval` is a slider at 30 and at 7 with other
bounds. -/
theorem renderInput_determined_witness :
    renderInput { name := "poll_interval", setting := pollInterval (.num 30) } = .slider ∧
      renderInput { name := "poll_interval", setting := pollInterval (.num 30) }
        = renderInput ⟨"other", { pollInterval (.num 7) with min := none, max := some 9 }⟩ :=
  ⟨by decide, renderInput_determined _ _ rfl rfl rfl⟩

/-- C29: what `handleSave` does is the same for every value of `showAdvanced` and
of the collapsed set: the same calls to the collaborator, the same error
object, working copy, baseline and `saving`. Every setting is validated,
hidden or not: a setting that fails validation under a name other than
`__proto__` stops the save whatever these two are. -/
theorem handleSave_ignores_view_state (saveSettings : Data → SaveOutcome) (s : State)
    (showAdvanced : Bool) (collapsed : JsObj Bool) :
    (handleSave saveSettings
        { s with showAdvanced := showAdvanced, collapsedGroups := collapsed }).2
        = (handleSave saveSettings s).2 ∧
      (handleSave saveSettings
        { s with showAdvanced := showAdvanced, collapsedGroups := collapsed }).1.errors
        = (handleSave saveSettings s).1.errors ∧
      (handleSave saveSettings
        { s with showAdvanced := showAdvanced, collapsedGroups := collapsed }).1.data
        = (handleSave saveSettings s).1.data ∧
      (handleSave saveSettings
        { s with showAdvanced := showAdvanced, collapsedGroups := collapsed }).1.originalData
        = (handleSave saveSettings s).1.originalData ∧
      (handleSave saveSettings
        { s with showAdvanced := showAdvanced, collapsedGroups := collapsed }).1.saving
        = (handleSave saveSettings s).1.saving ∧
      (∀ item ∈ s.data.settings, validateSetting item.name item.setting ≠ none →
        item.name ≠ "__proto__" →
        (handleSave saveSettings
          { s with showAdvanced := showAdvanced, collapsedGroups := collapsed }).2 = []) := by
  refine ⟨?_, ?_, ?_, ?_, ?_, ?_⟩
  on_goal 6 =>
    intro item hitem hinv hname
    exact (handleSave_stops_on_invalid saveSettings
      { s with showAdvanced := showAdvanced, collapsedGroups := collapsed }
      ⟨item, hitem, hinv, hname⟩).1
  all_goals
    unfold handleSave handleSaveBegin
    by_cases hk : (JsObj.keys (collectErrors s.data.settings)).length > 0
    · simp only [hk, if_true]
    · simp only [hk, if_false]
      cases saveSettings s.data <;> rfl

/-- Witness of C29: an advanced, required and empty `api_token` is not rendered
while `showAdvanced` is false, and the save is stopped all the same. -/
theorem handleSave_ignores_view_state_witness :
    renderSetting hiddenInvalidExample requiredApiToken = none ∧
      (handleSave (fun _ => SaveOutcome.resolved)
        { hiddenInvalidExample with
          showAdvanced := false, collapsedGroups := [("General", true)] }).2 = [] :=
  ⟨by decide,
    (handleSave_ignores_view_state (fun _ => SaveOutcome.resolved) hiddenInvalidExample
      false [("General", true)]).2.2.2.2.2 requiredApiToken (by decide) (by decide) (by decide)⟩

theorem app_groupStep_eq (groups : JsObj (List GroupEntry)) (item : SettingItem) (index : Nat) :
    App.groupStep groups item index = groupStep groups item index := rfl

theorem app_groupLoop_eq (rest : List SettingItem) (index : Nat)
    (groups : JsObj (List GroupEntry)) :
    App.groupLoop rest index groups = groupLoop rest index groups := by
  induction rest generalizing index groups with
  | nil => rfl
  | cons item rest ih =>
    simp only [App.groupLoop, groupLoop, app_groupStep_eq]
    cases groupStep groups item index with
    | ok g1 => exact ih (index + 1) g1
    | error e => rfl

/-- C30: the two copies of the engine agree: `validateSetting` of `skill.tsx`
returns what `validateSetting` of `SettingsPage.jsx` returns for every
descriptor, and the two `groupedSettings` give the same outcome for every
state, hence the same groups in the same order. -/
theorem app_engine_agrees :
    (∀ name setting, App.validateSetting name setting = validateSetting name setting) ∧
      (∀ s, App.groupedSettings s = groupedSettings s) ∧
      (∀ s, (App.groupedSettings s).toOption.map JsObj.entries
        = (groupedSettings s).toOption.map JsObj.entries) := by
  have h2 : ∀ s, App.groupedSettings s = groupedSettings s :=
    fun s => app_groupLoop_eq s.data.settings 0 []
  exact ⟨fun _ _ => rfl, h2, fun s => by rw [h2 s]⟩

end AviCore
